import Mathlib

/-!
Verification development for the resumable video-splitting engine in
`split_with_ffmpeg.py`.

Strings are modelled as `List Char`; file sizes as `Nat`; durations and
byte limits as `ℚ` (the Python floats are idealised as exact rational
arithmetic).  The filesystem is modelled as a list of absolute paths with
separator '/'; the external `ffmpeg` tool is an oracle `FfCmd → Bool`
(`true` = zero exit status and the output file exists afterwards).
-/

namespace SplitFF

/-- Strings as lists of characters. -/
abbrev Str := List Char

/-- Coerce a Lean string literal to the `List Char` representation. -/
def str (s : String) : Str := s.toList

/-- Python `str(n)` for a natural number (decimal digits). -/
def natStr (n : Nat) : Str := Nat.toDigits 10 n

/-- Left-pad with `'0'` to width `w` (what `f"{n:0{w}d}"` does to `str(n)`). -/
def pyPad (w : Nat) (s : Str) : Str := List.replicate (w - s.length) '0' ++ s

/-- Python `str.replace`, fuel-driven so it reduces in the kernel.
The fuel drops by one per emitted chunk; `fuel = s.length` is always enough. -/
def strReplaceFuel (old new : Str) : Nat → Str → Str
  | _, [] => []
  | 0, s => s
  | fuel+1, c :: cs =>
    if (c :: cs).take old.length == old then
      new ++ strReplaceFuel old new fuel (cs.drop (old.length - 1))
    else
      c :: strReplaceFuel old new fuel cs

/-- Python `s.replace(old, new)` (all non-overlapping occurrences, left to
right; an empty `old` inserts `new` at every position, as in Python). -/
def strReplace (s old new : Str) : Str :=
  if old = [] then new ++ (s.map (fun c => c :: new)).flatten
  else strReplaceFuel old new s.length s

/-- Python `s.endswith(suf)`. -/
def pyEndsWith (s suf : Str) : Bool :=
  s.drop (s.length - suf.length) == suf

/-- `os.path.splitext` for a separator-free name: split at the last dot,
unless only dots precede it (CPython `genericpath.splitext` with
`sepIndex = -1`). -/
def splitExt (s : Str) : Str × Str :=
  match s.reverse.dropWhile (fun c => c ≠ '.') with
  | [] => (s, [])
  | _ :: nameRev =>
    if nameRev.any (fun c => c ≠ '.') then
      (nameRev.reverse, '.' :: (s.reverse.takeWhile (fun c => c ≠ '.')).reverse)
    else (s, [])

/-- `os.path.basename` for '/'-separated paths. -/
def basename (s : Str) : Str := (s.reverse.takeWhile (fun c => c ≠ '/')).reverse

/-- `os.path.dirname` for '/'-separated paths. -/
def dirname (s : Str) : Str := ((s.reverse.dropWhile (fun c => c ≠ '/')).drop 1).reverse

/-- `os.path.join(d, n)` for a relative `n` ('/'-separated paths). -/
def pyJoin (d n : Str) : Str := if d = [] then n else d ++ '/' :: n

/-- Python slice `s[:-k]` for `k ≥ 0` (note `s[:-0] = s[:0] = ""`). -/
def pySliceUpToNeg (s : Str) (k : Nat) : Str :=
  if k = 0 then [] else s.take (s.length - k)

/-- Zero-padding width used throughout the script:
`len(str(total_parts)) if total_parts >= 10 else 0`. -/
def widthOf (total : Nat) : Nat := if total ≥ 10 then (natStr total).length else 0

/-- `f"{n:0{w}d}" if w > 0 else str(n)`. -/
def numStr (w n : Nat) : Str := if w > 0 then pyPad w (natStr n) else natStr n

/-- The part-name suffix the script computes in `format_part_filename`,
`is_already_a_part`, `get_base_name_without_suffix` and
`check_and_move_original_if_parts_complete`:
`pattern.replace("##", total_str).replace("#", part_str)`. -/
def mkSuffix (pattern : Str) (total part : Nat) : Str :=
  let w := widthOf total
  strReplace (strReplace pattern (str "##") (numStr w total)) (str "#") (numStr w part)

/-- `format_part_filename(base_name, ext, part_num, total_parts, pattern)`. -/
def format_part_filename (base ext : Str) (part total : Nat) (pattern : Str) : Str :=
  base ++ mkSuffix pattern total part ++ ext

/-- `generate_expected_parts(base_name, ext, target_dir, n_parts, pattern)`. -/
def generate_expected_parts (base ext target : Str) (n : Nat) (pattern : Str) : List Str :=
  (List.range n).map (fun i => pyJoin target (format_part_filename base ext (i + 1) n pattern))

/-- `get_existing_parts(expected_parts)`; the filesystem is the list `fs`. -/
def get_existing_parts (fs : List Str) (expected : List Str) : List Str :=
  expected.filter (fun p => decide (p ∈ fs))

/-- The double loop `for total_parts in range(2, 100): for part_num in
range(1, total_parts + 1): ...` shared by `is_already_a_part` and
`get_base_name_without_suffix`; yields the first `(total, part)` whose
suffix the name ends with. -/
def searchTP (nameNoExt pattern : Str) : Option (Nat × Nat) :=
  (List.range' 2 98).findSome? fun t =>
    ((List.range' 1 t).find? fun p => pyEndsWith nameNoExt (mkSuffix pattern t p)).map
      fun p => (t, p)

/-- `is_already_a_part(filename, pattern)`. -/
def is_already_a_part (filename pattern : Str) : Bool :=
  if '#' ∈ pattern then (searchTP (splitExt filename).1 pattern).isSome else false

/-- `get_base_name_without_suffix(filename, pattern)`. -/
def get_base_name_without_suffix (filename pattern : Str) : Option Str :=
  (searchTP (splitExt filename).1 pattern).map fun tp =>
    pySliceUpToNeg (splitExt filename).1 (mkSuffix pattern tp.1 tp.2).length

/-- The spec's `Recognize(filename, pattern)`: the same first-match search,
returning the recovered base name together with the matched
`(total, part)` pair. -/
def recognizeTriple (filename pattern : Str) : Option (Str × Nat × Nat) :=
  (searchTP (splitExt filename).1 pattern).map fun tp =>
    (pySliceUpToNeg (splitExt filename).1 (mkSuffix pattern tp.1 tp.2).length, tp.1, tp.2)

/-- `calculate_parts_from_target_size(file_size_bytes, max_target_bytes)`;
float arithmetic idealised as exact `ℚ` arithmetic. -/
def calculate_parts_from_target_size (size : Nat) (maxB : ℚ) : Int :=
  if (size : ℚ) ≤ maxB then 1
  else
    let safeTarget := maxB * (98 / 100)
    max (Int.ceil ((size : ℚ) / safeTarget)) 2

/-- The default part-naming pattern of the CLI (`--exists-pattern`). -/
def defaultPat : Str := str "_part_#_of_##"

/-- Decimal digit string of `n`, expressed through Mathlib's `Nat.digits`
(least-significant first, hence the reverse); used to reason about
`natStr`. -/
def myDigits (n : Nat) : Str :=
  if n = 0 then ['0'] else ((Nat.digits 10 n).map Nat.digitChar).reverse

/-- Python `str.lower`. -/
def lowerStr (s : Str) : Str := s.map Char.toLower

/-- The video-extension set used to filter `os.listdir(target_dir)` results
inside `check_and_move_original_if_parts_complete`. -/
def videoExts : List Str :=
  [str ".mp4", str ".mkv", str ".avi", str ".mov", str ".webm", str ".flv",
   str ".m4v", str ".mpg", str ".mpeg", str ".ts", str ".m2ts"]

/-- `f.lower().endswith((...video extensions...))`. -/
def isVideoName (f : Str) : Bool := videoExts.any (fun e => pyEndsWith (lowerStr f) e)

/-- `os.listdir(dir)` over the modelled filesystem (names, not paths). -/
def listdir (fs : List Str) (dir : Str) : List Str :=
  fs.filterMap (fun p => if dirname p = dir then some (basename p) else none)

/-- Events appended to the script's action / completion logs. -/
inductive LogEntry where
  | skippedPart (path : Str)
  | skippedAllExist (path : Str)
  | completed (path : Str) (nParts : Nat)
  | moved (path dest : Str)
  deriving DecidableEq, Repr

/-- Mutable world state: the filesystem (set of file paths) and the logs. -/
structure St where
  fs : List Str
  log : List LogEntry
  deriving DecidableEq, Repr

/-- `move_processed_source(source_file, source_dir)`: move the original into
the sibling archive directory, deduplicating with `_1`, `_2`, ... on
collision (filesystem operations are assumed to succeed). -/
def move_processed_source (st : St) (sourceFile sourceDir : Str) : St :=
  let archivePath := pyJoin (dirname sourceDir) (basename sourceDir ++ str " source")
  let dest0 := pyJoin archivePath (basename sourceFile)
  let dest :=
    if dest0 ∈ st.fs then
      let be := splitExt (basename sourceFile)
      match (List.range' 1 (st.fs.length + 1)).find?
          (fun k => decide (pyJoin archivePath (be.1 ++ '_' :: natStr k ++ be.2) ∉ st.fs)) with
      | some k => pyJoin archivePath (be.1 ++ '_' :: natStr k ++ be.2)
      | none => dest0
    else dest0
  { fs := dest :: st.fs.erase sourceFile, log := st.log ++ [.moved sourceFile dest] }

/-- The inner `for total_parts in range(2, 100)` loop of
`check_and_move_original_if_parts_complete` that collects every
`total_parts` whose suffix (for some part number) the name ends with. -/
def matchingTotals (nameNoExt pattern : Str) : List Nat :=
  (List.range' 2 98).filter
    (fun t => (List.range' 1 t).any (fun p => pyEndsWith nameNoExt (mkSuffix pattern t p)))

/-- `check_and_move_original_if_parts_complete(video_file, target_dir,
pattern, source_dir, move_processed)`. -/
def check_and_move_original_if_parts_complete (st : St)
    (videoFile targetDir pattern sourceDir : Str) (moveProcessed : Bool) : Bool × St :=
  match get_base_name_without_suffix (basename videoFile) pattern with
  | none => (false, st)
  | some base =>
    let targetFiles := (listdir st.fs targetDir).filter isVideoName
    let possible :=
      (targetFiles.filter (fun f => get_base_name_without_suffix f pattern == some base)).flatMap
        (fun f => matchingTotals (splitExt f).1 pattern)
    if possible = [] then (false, st)
    else
      let n := possible.foldl max 0
      let ext := (splitExt (basename videoFile)).2
      let expected := generate_expected_parts base ext targetDir n pattern
      let existing := get_existing_parts st.fs expected
      if existing.length = n then
        (true, if moveProcessed then move_processed_source st videoFile sourceDir else st)
      else (false, st)

/-- One invocation of the external remux tool:
`ffmpeg -y -ss start -i input -c copy -avoid_negative_ts make_zero
[-t tBound] output`. -/
structure FfCmd where
  input : Str
  start : ℚ
  tBound : Option ℚ
  output : Str
  deriving DecidableEq, Repr

/-- The command built for 0-indexed part `i` in `split_with_ffmpeg`:
`start_time = part_duration * i`, and `-t part_duration` exactly when
`i < n_parts - 1`. -/
def mkCmd (input : Str) (pd : ℚ) (n i : Nat) (out : Str) : FfCmd :=
  ⟨input, pd * i, if i < n - 1 then some pd else none, out⟩

/-- The `for i in missing_indices` loop of `split_with_ffmpeg`: invoke the
tool per missing part; a failing invocation triggers `sys.exit(1)`
(returned as the `true` flag) without starting further parts. -/
def runParts (ok : FfCmd → Bool) (input : Str) (pd : ℚ) (n : Nat) (expected : List Str) :
    List Nat → List Str → List FfCmd × List Str × Bool
  | [], fs => ([], fs, false)
  | i :: rest, fs =>
    let c := mkCmd input pd n i (expected.getD i [])
    if ok c then
      let r := runParts ok input pd n expected rest (c.output :: fs)
      (c :: r.1, r.2.1, r.2.2)
    else ([c], fs, true)

/-- The status string returned by `split_with_ffmpeg`. -/
inductive SplitStatus where
  | alreadyPart | alreadyComplete | newSplit | resume | incomplete
  deriving DecidableEq, Repr

/-- Result of `split_with_ffmpeg`: the tool invocations made, the new world
state, and the returned pair — `none` models `sys.exit(1)`. -/
structure SplitRes where
  cmds : List FfCmd
  st : St
  ret : Option (List Str × SplitStatus)
  deriving DecidableEq, Repr

/-- `generate_expected_parts` applied to the stem and extension of the
input's basename, as computed at the top of `split_with_ffmpeg` and again
in `main`'s classification and execution loops. -/
def expectedOf (inputFile targetDir pattern : Str) (n : Nat) : List Str :=
  generate_expected_parts (splitExt (basename inputFile)).1 (splitExt (basename inputFile)).2
    targetDir n pattern

/-- `missing_indices = [i for i, p in enumerate(expected_parts) if p not in
existing_parts]`. -/
def missingOf (fs : List Str) (expected : List Str) (n : Nat) : List Nat :=
  (List.range n).filter (fun i => decide (expected.getD i [] ∉ get_existing_parts fs expected))

/-- `split_with_ffmpeg(input_file, n_parts, target_dir, pattern, source_dir,
move_processed)`. -/
def split_with_ffmpeg (ok : FfCmd → Bool) (dur : Str → ℚ) (inputFile : Str) (nParts : Nat)
    (targetDir pattern sourceDir : Str) (moveProcessed : Bool) (st : St) : SplitRes :=
  if is_already_a_part (basename inputFile) pattern then
    ⟨[], { st with log := st.log ++ [.skippedPart inputFile] }, some ([], .alreadyPart)⟩
  else
    let expected := expectedOf inputFile targetDir pattern nParts
    let existing := get_existing_parts st.fs expected
    let missing := missingOf st.fs expected nParts
    if missing = [] then ⟨[], st, some (existing, .alreadyComplete)⟩
    else
      let status := if existing.length > 0 then SplitStatus.resume else SplitStatus.newSplit
      let r := runParts ok inputFile (dur inputFile / nParts) nParts expected missing st.fs
      if r.2.2 then ⟨r.1, { st with fs := r.2.1 }, none⟩
      else
        let finalParts := get_existing_parts r.2.1 expected
        if finalParts.length = nParts then
          let st1 : St := { fs := r.2.1, log := st.log ++ [.completed inputFile nParts] }
          let st2 := if moveProcessed then move_processed_source st1 inputFile sourceDir else st1
          ⟨r.1, st2, some (finalParts, status)⟩
        else ⟨r.1, { st with fs := r.2.1 }, some (finalParts, .incomplete)⟩

/-- The action classification `main` assigns to one candidate
(lines 408–440): skip-already-part / auto-move / too-small /
skip-complete / split (with part count and resume flag). -/
inductive PClass where
  | alreadyPart | autoMove | tooSmall | completeSkip
  | toSplit (n : Nat) (resume : Bool)
  deriving DecidableEq, Repr

/-- The tail of `main`'s classification once `n_parts` is known: complete
(all expected parts exist) versus split-new / split-resume. -/
def classifySplitTail (pattern targetDir : Str) (st : St) (video : Str) (n : Nat) : PClass :=
  let existing := get_existing_parts st.fs (expectedOf video targetDir pattern n)
  if existing.length = n then .completeSkip else .toSplit n (existing.length > 0)

/-- One iteration of `main`'s classification loop over candidates.
`check_and_move...` receives `moveprocessed and not dry_run`, exactly as in
the source. -/
def classify_candidate (pattern : Str) (partsArg : Nat) (maxB : Option ℚ) (targetDir : Str)
    (moveProcessed dryRun : Bool) (size : Str → Nat) (st : St) (video sourceDir : Str) :
    PClass × St :=
  if is_already_a_part (basename video) pattern then (.alreadyPart, st)
  else
    let cm := check_and_move_original_if_parts_complete st video targetDir pattern sourceDir
      (moveProcessed && !dryRun)
    if cm.1 then (.autoMove, cm.2)
    else
      match maxB with
      | some m =>
        if (size video : ℚ) ≤ m then (.tooSmall, st)
        else
          (classifySplitTail pattern targetDir st video
            (calculate_parts_from_target_size (size video) m).toNat, st)
      | none => (classifySplitTail pattern targetDir st video partsArg, st)

/-- `main`'s full classification pass, threading the world state (auto-move
may relocate files mid-pass). -/
def classify_all (pattern : Str) (partsArg : Nat) (maxB : Option ℚ) (targetDir : Str)
    (moveProcessed dryRun : Bool) (size : Str → Nat) :
    List (Str × Str) → St → List PClass × St
  | [], st => ([], st)
  | c :: rest, st =>
    let r := classify_candidate pattern partsArg maxB targetDir moveProcessed dryRun size st c.1 c.2
    let rr := classify_all pattern partsArg maxB targetDir moveProcessed dryRun size rest r.2
    (r.1 :: rr.1, rr.2)

/-- One iteration of `main`'s execution loop over `to_split` jobs
`(video, source_dir, n_parts)`: re-check the parts on disk, then call
`split_with_ffmpeg`; the third component signals `sys.exit(1)`. -/
def exec_step (ok : FfCmd → Bool) (dur : Str → ℚ) (pattern targetDir : Str)
    (moveProcessed : Bool) (st : St) (job : Str × Str × Nat) : List FfCmd × St × Bool :=
  let expected := expectedOf job.1 targetDir pattern job.2.2
  if (get_existing_parts st.fs expected).length = job.2.2 then
    ([], { st with log := st.log ++ [.skippedAllExist job.1] }, false)
  else
    let r := split_with_ffmpeg ok dur job.1 job.2.2 targetDir pattern job.2.1 moveProcessed st
    (r.cmds, r.st, r.ret.isNone)

/-- `main`'s execution loop; a `sys.exit(1)` inside `split_with_ffmpeg`
terminates the whole run, so no later job is started. -/
def exec_all (ok : FfCmd → Bool) (dur : Str → ℚ) (pattern targetDir : Str)
    (moveProcessed : Bool) : List (Str × Str × Nat) → St → List FfCmd × St × Bool
  | [], st => ([], st, false)
  | j :: js, st =>
    let r := exec_step ok dur pattern targetDir moveProcessed st j
    if r.2.2 then (r.1, r.2.1, true)
    else
      let rr := exec_all ok dur pattern targetDir moveProcessed js r.2.1
      (r.1 ++ rr.1, rr.2.1, rr.2.2)

/-- Result of one whole run of `main` over a candidate list. -/
structure MainRes where
  classes : List PClass
  cmds : List FfCmd
  st : St
  exited : Bool
  deriving DecidableEq, Repr

/-- `main` over an already-scanned candidate list `(video, source_dir)`:
classification pass, then (unless `--dry-run`) execution of the
`to_split` jobs. -/
def mainModel (ok : FfCmd → Bool) (size : Str → Nat) (dur : Str → ℚ) (pattern : Str)
    (partsArg : Nat) (maxB : Option ℚ) (targetDir : Str) (moveProcessed dryRun : Bool)
    (cands : List (Str × Str)) (st : St) : MainRes :=
  let cl := classify_all pattern partsArg maxB targetDir moveProcessed dryRun size cands st
  if dryRun then ⟨cl.1, [], cl.2, false⟩
  else
    let jobs := (cands.zip cl.1).filterMap (fun x =>
      match x.2 with
      | .toSplit n _ => some (x.1.1, x.1.2, n)
      | _ => none)
    let r := exec_all ok dur pattern targetDir moveProcessed jobs cl.2
    ⟨cl.1, r.1, r.2.1, r.2.2⟩

/-! ### Basic lemmas about `pyEndsWith`, `splitExt` and `strReplace` -/

theorem drop_append_add (a b : Str) (k : Nat) :
    (a ++ b).drop (a.length + k) = b.drop k := by
  rw [← List.drop_drop, List.drop_left]

theorem pyEndsWith_append_self (a b : Str) : pyEndsWith (a ++ b) b = true := by
  unfold pyEndsWith
  rw [List.length_append, Nat.add_sub_cancel, List.drop_left, beq_self_eq_true]

theorem pyEndsWith_append_absorb (a b suf : Str) (h : suf.length ≤ b.length) :
    pyEndsWith (a ++ b) suf = pyEndsWith b suf := by
  unfold pyEndsWith
  rw [List.length_append]
  have he : a.length + b.length - suf.length = a.length + (b.length - suf.length) := by omega
  rw [he, drop_append_add]

theorem pyEndsWith_false_of_lt (s suf : Str) (h : s.length < suf.length) :
    pyEndsWith s suf = false := by
  unfold pyEndsWith
  have h0 : s.length - suf.length = 0 := by omega
  rw [h0, List.drop_zero]
  refine beq_eq_false_iff_ne.mpr ?_
  intro he
  exact absurd (congrArg List.length he) (by omega)

theorem pyEndsWith_iff_of_length_eq (s suf : Str) (h : suf.length = s.length) :
    pyEndsWith s suf = true ↔ s = suf := by
  unfold pyEndsWith
  rw [h, Nat.sub_self, List.drop_zero, beq_iff_eq]

theorem takeWhile_append_cons (p : Char → Bool) (a : Str) (c : Char) (b : Str)
    (ha : ∀ x ∈ a, p x = true) (hc : p c = false) :
    (a ++ c :: b).takeWhile p = a := by
  induction a with
  | nil => simp [List.takeWhile_cons, hc]
  | cons x xs ih =>
    have hx : p x = true := ha x (by simp)
    simp only [List.cons_append, List.takeWhile_cons, hx, if_true]
    rw [ih (fun y hy => ha y (by simp [hy]))]

theorem dropWhile_append_cons (p : Char → Bool) (a : Str) (c : Char) (b : Str)
    (ha : ∀ x ∈ a, p x = true) (hc : p c = false) :
    (a ++ c :: b).dropWhile p = c :: b := by
  induction a with
  | nil => simp [List.dropWhile_cons, hc]
  | cons x xs ih =>
    have hx : p x = true := ha x (by simp)
    simp only [List.cons_append, List.dropWhile_cons, hx, if_true]
    exact ih (fun y hy => ha y (by simp [hy]))

theorem splitExt_of_clean (u r : Str) (hu : ∃ x ∈ u, x ≠ '.') (hr : '.' ∉ r) :
    splitExt (u ++ '.' :: r) = (u, '.' :: r) := by
  have hrev : (u ++ '.' :: r).reverse = r.reverse ++ '.' :: u.reverse := by
    rw [List.reverse_append, List.reverse_cons, List.append_assoc]
    rfl
  have hpa : ∀ x ∈ r.reverse, (decide (x ≠ '.')) = true := by
    intro x hx
    simp only [decide_eq_true_eq]
    intro hxe
    exact hr (by simpa [hxe] using List.mem_reverse.mp hx)
  have hpc : (decide (('.' : Char) ≠ '.')) = false := by decide
  have hdw : (u ++ '.' :: r).reverse.dropWhile (fun c => decide (c ≠ '.')) = '.' :: u.reverse := by
    rw [hrev]; exact dropWhile_append_cons _ _ _ _ hpa hpc
  have htw : (u ++ '.' :: r).reverse.takeWhile (fun c => decide (c ≠ '.')) = r.reverse := by
    rw [hrev]; exact takeWhile_append_cons _ _ _ _ hpa hpc
  have hany : u.reverse.any (fun c => decide (c ≠ '.')) = true := by
    rcases hu with ⟨x, hx, hxe⟩
    exact List.any_eq_true.mpr ⟨x, List.mem_reverse.mpr hx, by simpa using hxe⟩
  unfold splitExt
  rw [hdw, htw]
  simp only [hany, if_true, List.reverse_reverse]

theorem strReplaceFuel_nil (old new : Str) (f : Nat) : strReplaceFuel old new f [] = [] := by
  cases f <;> rfl

theorem strReplaceFuel_fuel_irrel (old new : Str) :
    ∀ f₁ f₂ s, s.length ≤ f₁ → s.length ≤ f₂ →
      strReplaceFuel old new f₁ s = strReplaceFuel old new f₂ s := by
  intro f₁
  induction f₁ with
  | zero =>
    intro f₂ s h₁ _
    have : s = [] := List.eq_nil_of_length_eq_zero (Nat.le_zero.mp h₁)
    subst this
    rw [strReplaceFuel_nil, strReplaceFuel_nil]
  | succ f ih =>
    intro f₂ s h₁ h₂
    cases s with
    | nil => rw [strReplaceFuel_nil, strReplaceFuel_nil]
    | cons c cs =>
      cases f₂ with
      | zero => exact absurd h₂ (by simp)
      | succ f₂' =>
        have hlen : cs.length ≤ f := by
          have := h₁; simp only [List.length_cons] at this; omega
        have hlen₂ : cs.length ≤ f₂' := by
          have := h₂; simp only [List.length_cons] at this; omega
        have hd : (cs.drop (old.length - 1)).length ≤ cs.length := by
          rw [List.length_drop]; omega
        by_cases hc : ((c :: cs).take old.length == old) = true
        · simp only [strReplaceFuel, if_pos hc]
          congr 1
          exact ih f₂' _ (le_trans hd hlen) (le_trans hd hlen₂)
        · simp only [strReplaceFuel, if_neg hc]
          congr 1
          exact ih f₂' cs hlen hlen₂

theorem strReplace_nil (old new : Str) (hold : old ≠ []) : strReplace [] old new = [] := by
  unfold strReplace
  rw [if_neg (by simpa using hold)]
  exact strReplaceFuel_nil old new 0

theorem strReplace_cons_no_match (old new : Str) (c : Char) (s : Str)
    (hold : old ≠ []) (h : (c :: s).take old.length ≠ old) :
    strReplace (c :: s) old new = c :: strReplace s old new := by
  unfold strReplace
  rw [if_neg (by simpa using hold), if_neg (by simpa using hold)]
  show strReplaceFuel old new (s.length + 1) (c :: s) = c :: strReplaceFuel old new s.length s
  have hc : ¬(((c :: s).take old.length == old) = true) := by simpa using h
  simp only [strReplaceFuel, if_neg hc]

theorem strReplace_match_head (c : Char) (o' new s : Str) :
    strReplace ((c :: o') ++ s) (c :: o') new = new ++ strReplace s (c :: o') new := by
  unfold strReplace
  rw [if_neg (by simp), if_neg (by simp)]
  have hlen : ((c :: o') ++ s).length = (o'.length + s.length) + 1 := by
    simp only [List.length_append, List.length_cons]; omega
  rw [hlen]
  show strReplaceFuel (c :: o') new ((o'.length + s.length) + 1) (c :: (o' ++ s)) = _
  have htake : ((c :: (o' ++ s)).take (c :: o').length == (c :: o')) = true := by
    simp only [List.length_cons, List.take_succ_cons, List.take_left]
    exact beq_self_eq_true _
  simp only [strReplaceFuel, if_pos htake]
  congr 1
  have hdrop : (o' ++ s).drop ((c :: o').length - 1) = s := by
    simp only [List.length_cons, Nat.add_sub_cancel]
    exact List.drop_left o' s
  rw [hdrop]
  exact strReplaceFuel_fuel_irrel _ _ _ _ _ (by omega) (Nat.le_refl _)

theorem strReplace_skip (c₀ : Char) (o' new : Str) (A s : Str)
    (hA : ∀ x ∈ A, x ≠ c₀) :
    strReplace (A ++ s) (c₀ :: o') new = A ++ strReplace s (c₀ :: o') new := by
  induction A with
  | nil => simp
  | cons a A ih =>
    have ha : a ≠ c₀ := hA a (by simp)
    have hne : (a :: (A ++ s)).take (c₀ :: o').length ≠ c₀ :: o' := by
      simp only [List.length_cons, List.take_succ_cons]
      intro he
      injection he with h1 _
      exact ha h1
    rw [List.cons_append, strReplace_cons_no_match _ _ _ _ (by simp) hne,
        ih (fun y hy => hA y (by simp [hy])), List.cons_append]

theorem strReplace_no_occ (c₀ : Char) (o' new : Str) (s : Str)
    (hs : ∀ x ∈ s, x ≠ c₀) :
    strReplace s (c₀ :: o') new = s := by
  have h := strReplace_skip c₀ o' new s [] hs
  rw [List.append_nil] at h
  rw [h, strReplace_nil _ _ (by simp), List.append_nil]

theorem strReplace_hashhash_cons (C new : Str) (hC : ∀ x ∈ C, x ≠ '#') :
    strReplace ('#' :: C) ['#', '#'] new = '#' :: C := by
  have hne : ('#' :: C).take (['#', '#'] : Str).length ≠ ['#', '#'] := by
    cases C with
    | nil => decide
    | cons c cs =>
      have hc : c ≠ '#' := hC c (by simp)
      intro he
      have h2 : ('#' :: c :: cs).take 2 = ['#', c] := rfl
      rw [show (['#', '#'] : Str).length = 2 from rfl, h2] at he
      injection he with _ h3
      injection h3 with h4 _
      exact hc h4
  rw [strReplace_cons_no_match _ _ _ _ (by simp) hne,
      strReplace_no_occ '#' ['#'] new C hC]

/-! ### Decimal digit strings: `natStr` and `numStr` -/

theorem toDigitsCore_eq (f : Nat) : ∀ (n : Nat) (ds : Str), n < f →
    Nat.toDigitsCore 10 f n ds = myDigits n ++ ds := by
  induction f with
  | zero => intro n ds h; omega
  | succ f ih =>
    intro n ds _
    show Nat.toDigitsCore 10 (f + 1) n ds = myDigits n ++ ds
    by_cases h10 : n / 10 = 0
    · have hn10 : n < 10 := by omega
      have hstep : Nat.toDigitsCore 10 (f + 1) n ds = Nat.digitChar (n % 10) :: ds := by
        simp only [Nat.toDigitsCore, h10, if_true]
      rw [hstep]
      by_cases h0 : n = 0
      · subst h0; rfl
      · unfold myDigits
        rw [if_neg h0]
        rw [Nat.digits_def' (by norm_num : (1 : Nat) < 10) (by omega)]
        have hd0 : Nat.digits 10 (n / 10) = [] := by rw [h10]; exact Nat.digits_zero 10
        rw [hd0]
        simp [Nat.mod_eq_of_lt hn10]
    · have hn10 : 10 ≤ n := by
        by_contra hlt
        exact h10 (Nat.div_eq_of_lt (by omega))
      have hstep : Nat.toDigitsCore 10 (f + 1) n ds =
          Nat.toDigitsCore 10 f (n / 10) (Nat.digitChar (n % 10) :: ds) := by
        simp only [Nat.toDigitsCore, h10, if_false]
      rw [hstep]
      have hdiv : n / 10 < n := Nat.div_lt_self (by omega) (by norm_num)
      rw [ih (n / 10) _ (by omega)]
      have hmy : myDigits n = myDigits (n / 10) ++ [Nat.digitChar (n % 10)] := by
        unfold myDigits
        rw [if_neg (by omega), if_neg (by omega)]
        rw [Nat.digits_def' (by norm_num : (1 : Nat) < 10) (by omega)]
        simp [List.reverse_cons]
      rw [hmy, List.append_assoc]
      rfl

theorem natStr_eq_myDigits (n : Nat) : natStr n = myDigits n := by
  unfold natStr Nat.toDigits
  rw [toDigitsCore_eq _ _ _ (Nat.lt_succ_self n), List.append_nil]

theorem natStr_isDigit (n : Nat) : ∀ c ∈ natStr n, c.isDigit = true := by
  rw [natStr_eq_myDigits]
  unfold myDigits
  by_cases h : n = 0
  · simp only [h, if_true]
    intro c hc
    rw [List.mem_singleton] at hc
    subst hc; decide
  · rw [if_neg h]
    intro c hc
    rw [List.mem_reverse] at hc
    obtain ⟨d, hd, rfl⟩ := List.mem_map.mp hc
    have hlt : d < 10 := Nat.digits_lt_base (by norm_num) hd
    have hall : ∀ e, e < 10 → (Nat.digitChar e).isDigit = true := by decide
    exact hall d hlt

theorem natStr_ne_nil (n : Nat) : natStr n ≠ [] := by
  rw [natStr_eq_myDigits]
  unfold myDigits
  by_cases h : n = 0
  · simp [h]
  · rw [if_neg h]
    simp only [ne_eq, List.reverse_eq_nil_iff, List.map_eq_nil_iff]
    exact Nat.digits_ne_nil_iff_ne_zero.mpr h

theorem map_digitChar_inj : ∀ (l₁ l₂ : List Nat), (∀ d ∈ l₁, d < 10) → (∀ d ∈ l₂, d < 10) →
    l₁.map Nat.digitChar = l₂.map Nat.digitChar → l₁ = l₂ := by
  intro l₁
  induction l₁ with
  | nil =>
    intro l₂ _ _ h
    cases l₂ with
    | nil => rfl
    | cons b bs => simp at h
  | cons a as ih =>
    intro l₂ h₁ h₂ h
    cases l₂ with
    | nil => simp at h
    | cons b bs =>
      simp only [List.map_cons, List.cons.injEq] at h
      have hdc : ∀ x, x < 10 → ∀ y, y < 10 → Nat.digitChar x = Nat.digitChar y → x = y := by decide
      have hab : a = b := hdc a (h₁ a (by simp)) b (h₂ b (by simp)) h.1
      rw [hab, ih bs (fun d hd => h₁ d (by simp [hd])) (fun d hd => h₂ d (by simp [hd])) h.2]

theorem natStr_inj (m n : Nat) (h : natStr m = natStr n) : m = n := by
  rw [natStr_eq_myDigits, natStr_eq_myDigits] at h
  unfold myDigits at h
  by_cases hm : m = 0 <;> by_cases hn : n = 0
  · omega
  · exfalso
    rw [if_pos hm, if_neg hn] at h
    have h' : ('0' :: ([] : Str)).reverse = ((Nat.digits 10 n).map Nat.digitChar).reverse := by
      rw [← h]; rfl
    rw [List.reverse_inj] at h'
    have hd : Nat.digits 10 n = [0] := by
      refine (map_digitChar_inj (Nat.digits 10 n) [0]
        (fun d hd => Nat.digits_lt_base (by norm_num) hd) ?_ ?_)
      · intro d hd; rw [List.mem_singleton] at hd; omega
      · rw [← h']; rfl
    have hofd := Nat.ofDigits_digits 10 n
    rw [hd] at hofd
    have h0 : Nat.ofDigits 10 ([0] : List Nat) = 0 := by
      rw [Nat.ofDigits_singleton]
    rw [hofd] at h0
    exact hn h0
  · exfalso
    rw [if_neg hm, if_pos hn] at h
    have h' : ((Nat.digits 10 m).map Nat.digitChar).reverse = ('0' :: ([] : Str)).reverse := by
      rw [h]; rfl
    rw [List.reverse_inj] at h'
    have hd : Nat.digits 10 m = [0] := by
      refine (map_digitChar_inj (Nat.digits 10 m) [0]
        (fun d hd => Nat.digits_lt_base (by norm_num) hd) ?_ ?_)
      · intro d hd; rw [List.mem_singleton] at hd; omega
      · rw [h']; rfl
    have hofd := Nat.ofDigits_digits 10 m
    rw [hd] at hofd
    have h0 : Nat.ofDigits 10 ([0] : List Nat) = 0 := by
      rw [Nat.ofDigits_singleton]
    rw [hofd] at h0
    exact hm h0
  · rw [if_neg hm, if_neg hn, List.reverse_inj] at h
    have hd := map_digitChar_inj _ _ (fun d hd => Nat.digits_lt_base (by norm_num) hd)
      (fun d hd => Nat.digits_lt_base (by norm_num) hd) h
    exact Nat.digits.injective 10 hd

theorem natStr_no_leading_zero (n : Nat) (hn : 1 ≤ n) (l : Str)
    (h : natStr n = '0' :: l) : False := by
  rw [natStr_eq_myDigits] at h
  unfold myDigits at h
  rw [if_neg (by omega)] at h
  have hh : (((Nat.digits 10 n).map Nat.digitChar).reverse).head? = some '0' := by
    rw [h]; rfl
  rw [List.head?_reverse, List.getLast?_map] at hh
  have hne : Nat.digits 10 n ≠ [] := Nat.digits_ne_nil_iff_ne_zero.mpr (by omega)
  rw [List.getLast?_eq_getLast _ hne] at hh
  simp at hh
  have hlt : (Nat.digits 10 n).getLast hne < 10 :=
    Nat.digits_lt_base (by norm_num) (List.getLast_mem hne)
  have hz : (Nat.digits 10 n).getLast hne = 0 := by
    have hdc : ∀ x, x < 10 → Nat.digitChar x = '0' → x = 0 := by decide
    exact hdc _ hlt hh
  exact Nat.getLast_digit_ne_zero 10 (show n ≠ 0 by omega) hz

theorem numStr_ne_nil (w n : Nat) : numStr w n ≠ [] := by
  unfold numStr
  by_cases hw : w > 0
  · rw [if_pos hw]
    unfold pyPad
    intro he
    exact natStr_ne_nil n (List.append_eq_nil.mp he).2
  · rw [if_neg hw]; exact natStr_ne_nil n

theorem numStr_isDigit (w n : Nat) : ∀ c ∈ numStr w n, c.isDigit = true := by
  unfold numStr
  by_cases hw : w > 0
  · rw [if_pos hw]
    unfold pyPad
    intro c hc
    rcases List.mem_append.mp hc with hrep | hns
    · rw [List.eq_of_mem_replicate hrep]; decide
    · exact natStr_isDigit n c hns
  · rw [if_neg hw]; exact natStr_isDigit n

theorem numStr_no_hash (w n : Nat) : ∀ c ∈ numStr w n, c ≠ '#' := by
  intro c hc he
  have := numStr_isDigit w n c hc
  rw [he] at this
  exact absurd this (by decide)

theorem numStr_inj (w i j : Nat) (hi : 1 ≤ i) (hj : 1 ≤ j)
    (h : numStr w i = numStr w j) : i = j := by
  unfold numStr at h
  by_cases hw : w > 0
  · rw [if_pos hw, if_pos hw] at h
    unfold pyPad at h
    have hlen := congrArg List.length h
    simp only [List.length_append, List.length_replicate] at hlen
    rcases Nat.lt_trichotomy (natStr i).length (natStr j).length with hlt | heq | hgt
    · exfalso
      have hka : w - (natStr i).length = (w - (natStr j).length) + ((natStr j).length - (natStr i).length) := by omega
      have hk1 : 1 ≤ (natStr j).length - (natStr i).length := by omega
      rw [hka, List.replicate_add, List.append_assoc] at h
      have h2 := List.append_cancel_left h
      set k := (natStr j).length - (natStr i).length with hk
      have : natStr j = '0' :: (List.replicate (k - 1) '0' ++ natStr i) := by
        rw [← h2]
        cases hkk : k with
        | zero => omega
        | succ k' => simp [List.replicate_succ]
      exact natStr_no_leading_zero j hj _ this
    · have hww : w - (natStr i).length = w - (natStr j).length := by omega
      rw [hww] at h
      exact natStr_inj i j (List.append_cancel_left h)
    · exfalso
      have hka : w - (natStr j).length = (w - (natStr i).length) + ((natStr i).length - (natStr j).length) := by omega
      have hk1 : 1 ≤ (natStr i).length - (natStr j).length := by omega
      rw [hka, List.replicate_add, List.append_assoc] at h
      have h2 := List.append_cancel_left h.symm
      set k := (natStr i).length - (natStr j).length with hk
      have : natStr i = '0' :: (List.replicate (k - 1) '0' ++ natStr j) := by
        rw [← h2]
        cases hkk : k with
        | zero => omega
        | succ k' => simp [List.replicate_succ]
      exact natStr_no_leading_zero i hi _ this
  · rw [if_neg hw, if_neg hw] at h
    exact natStr_inj i j h

/-! ### Structure of `mkSuffix` for placeholder patterns -/

theorem strReplace_match_single (c : Char) (new s : Str) :
    strReplace (c :: s) [c] new = new ++ strReplace s [c] new := by
  have h := strReplace_match_head c [] new s
  simpa using h

theorem strReplace_match_double (c : Char) (new s : Str) :
    strReplace (c :: c :: s) [c, c] new = new ++ strReplace s [c, c] new := by
  have h := strReplace_match_head c [c] new s
  simpa using h

theorem replace_form2 (A B C T P : Str)
    (hA : ∀ x ∈ A, x ≠ '#') (hB : ∀ x ∈ B, x ≠ '#') (hC : ∀ x ∈ C, x ≠ '#')
    (hT : ∀ x ∈ T, x ≠ '#') (hBne : B ≠ []) :
    strReplace (strReplace (A ++ '#' :: (B ++ '#' :: '#' :: C)) ['#', '#'] T) ['#'] P
      = A ++ P ++ B ++ T ++ C := by
  obtain ⟨b, B', rfl⟩ : ∃ b B', B = b :: B' := by
    cases B with
    | nil => exact absurd rfl hBne
    | cons b B' => exact ⟨b, B', rfl⟩
  have hb : b ≠ '#' := hB b (by simp)
  have hinner : strReplace (A ++ '#' :: ((b :: B') ++ '#' :: '#' :: C)) ['#', '#'] T
      = A ++ '#' :: ((b :: B') ++ (T ++ C)) := by
    rw [strReplace_skip '#' ['#'] T A _ hA]
    congr 1
    have hne : ('#' :: ((b :: B') ++ '#' :: '#' :: C)).take (['#', '#'] : Str).length
        ≠ ['#', '#'] := by
      intro he
      have h2 : ('#' :: ((b :: B') ++ '#' :: '#' :: C)).take 2 = ['#', b] := rfl
      rw [show (['#', '#'] : Str).length = 2 from rfl, h2] at he
      injection he with _ h3
      injection h3 with h4 _
      exact hb h4
    rw [strReplace_cons_no_match _ _ _ _ (by simp) hne]
    congr 1
    rw [strReplace_skip '#' ['#'] T (b :: B') _ hB]
    congr 1
    rw [strReplace_match_double '#' T C, strReplace_no_occ '#' ['#'] T C hC]
  rw [hinner]
  rw [strReplace_skip '#' [] P A _ hA]
  rw [strReplace_match_single '#' P ((b :: B') ++ (T ++ C))]
  have hno : ∀ x ∈ (b :: B') ++ (T ++ C), x ≠ '#' := by
    intro x hx
    rcases List.mem_append.mp hx with h | h
    · exact hB x h
    · rcases List.mem_append.mp h with h' | h'
      · exact hT x h'
      · exact hC x h'
  rw [strReplace_no_occ '#' [] P _ hno]
  simp [List.append_assoc]

theorem replace_form1 (A B C T P : Str)
    (hA : ∀ x ∈ A, x ≠ '#') (hB : ∀ x ∈ B, x ≠ '#') (hC : ∀ x ∈ C, x ≠ '#')
    (hT : ∀ x ∈ T, x ≠ '#') :
    strReplace (strReplace (A ++ '#' :: '#' :: (B ++ '#' :: C)) ['#', '#'] T) ['#'] P
      = A ++ T ++ B ++ P ++ C := by
  have hinner : strReplace (A ++ '#' :: '#' :: (B ++ '#' :: C)) ['#', '#'] T
      = A ++ (T ++ (B ++ '#' :: C)) := by
    rw [strReplace_skip '#' ['#'] T A _ hA]
    congr 1
    rw [strReplace_match_double '#' T (B ++ '#' :: C)]
    congr 1
    rw [strReplace_skip '#' ['#'] T B _ hB]
    congr 1
    exact strReplace_hashhash_cons C T hC
  rw [hinner]
  rw [show A ++ (T ++ (B ++ '#' :: C)) = (A ++ T ++ B) ++ '#' :: C by
    simp [List.append_assoc]]
  have hATB : ∀ x ∈ A ++ T ++ B, x ≠ '#' := by
    intro x hx
    rcases List.mem_append.mp hx with h | h
    · rcases List.mem_append.mp h with h' | h'
      · exact hA x h'
      · exact hT x h'
    · exact hB x h
  rw [strReplace_skip '#' [] P (A ++ T ++ B) _ hATB]
  rw [strReplace_match_single '#' P C, strReplace_no_occ '#' [] P C hC]
  simp [List.append_assoc]

theorem replace_form2nil (A C T P : Str)
    (hA : ∀ x ∈ A, x ≠ '#') (hC : ∀ x ∈ C, x ≠ '#')
    (hT : ∀ x ∈ T, x ≠ '#') :
    strReplace (strReplace (A ++ '#' :: '#' :: '#' :: C) ['#', '#'] T) ['#'] P
      = A ++ T ++ P ++ C := by
  have hinner : strReplace (A ++ '#' :: '#' :: '#' :: C) ['#', '#'] T
      = A ++ (T ++ '#' :: C) := by
    rw [strReplace_skip '#' ['#'] T A _ hA]
    congr 1
    rw [strReplace_match_double '#' T ('#' :: C)]
    congr 1
    exact strReplace_hashhash_cons C T hC
  rw [hinner]
  rw [show A ++ (T ++ '#' :: C) = (A ++ T) ++ '#' :: C by simp [List.append_assoc]]
  have hAT : ∀ x ∈ A ++ T, x ≠ '#' := by
    intro x hx
    rcases List.mem_append.mp hx with h | h
    · exact hA x h
    · exact hT x h
  rw [strReplace_skip '#' [] P (A ++ T) _ hAT]
  rw [strReplace_match_single '#' P C, strReplace_no_occ '#' [] P C hC]
  simp [List.append_assoc]

theorem mkSuffix_form2 (A B C : Str)
    (hA : ∀ x ∈ A, x ≠ '#') (hB : ∀ x ∈ B, x ≠ '#') (hC : ∀ x ∈ C, x ≠ '#')
    (hBne : B ≠ []) (t p : Nat) :
    mkSuffix (A ++ '#' :: (B ++ '#' :: '#' :: C)) t p
      = A ++ numStr (widthOf t) p ++ B ++ numStr (widthOf t) t ++ C := by
  unfold mkSuffix
  rw [show str "##" = ['#', '#'] from rfl, show str "#" = ['#'] from rfl]
  exact replace_form2 A B C _ _ hA hB hC (numStr_no_hash _ _) hBne

theorem mkSuffix_form1 (A B C : Str)
    (hA : ∀ x ∈ A, x ≠ '#') (hB : ∀ x ∈ B, x ≠ '#') (hC : ∀ x ∈ C, x ≠ '#')
    (t p : Nat) :
    mkSuffix (A ++ '#' :: '#' :: (B ++ '#' :: C)) t p
      = A ++ numStr (widthOf t) t ++ B ++ numStr (widthOf t) p ++ C := by
  unfold mkSuffix
  rw [show str "##" = ['#', '#'] from rfl, show str "#" = ['#'] from rfl]
  exact replace_form1 A B C _ _ hA hB hC (numStr_no_hash _ _)

theorem mkSuffix_form2nil (A C : Str)
    (hA : ∀ x ∈ A, x ≠ '#') (hC : ∀ x ∈ C, x ≠ '#') (t p : Nat) :
    mkSuffix (A ++ '#' :: '#' :: '#' :: C) t p
      = A ++ numStr (widthOf t) t ++ numStr (widthOf t) p ++ C := by
  unfold mkSuffix
  rw [show str "##" = ['#', '#'] from rfl, show str "#" = ['#'] from rfl]
  exact replace_form2nil A C _ _ hA hC (numStr_no_hash _ _)

theorem mkSuffix_default (t p : Nat) :
    mkSuffix defaultPat t p
      = ['_', 'p', 'a', 'r', 't', '_'] ++ numStr (widthOf t) p
          ++ ['_', 'o', 'f', '_'] ++ numStr (widthOf t) t := by
  have hd : defaultPat
      = ['_', 'p', 'a', 'r', 't', '_'] ++ '#' :: (['_', 'o', 'f', '_'] ++ '#' :: '#' :: []) := rfl
  rw [hd, mkSuffix_form2 _ _ _ (by decide) (by decide) (by simp) (by decide) t p]
  simp

/-! ### First-match semantics of the `(total, part)` search -/

theorem find?_range'_eq_none (p : Nat → Bool) : ∀ (n s : Nat),
    (∀ u, s ≤ u → u < s + n → p u = false) →
    (List.range' s n).find? p = none := by
  intro n
  induction n with
  | zero => intro s _; rfl
  | succ n ih =>
    intro s h
    rw [List.range'_succ]
    simp only [List.find?_cons, h s (Nat.le_refl s) (by omega)]
    exact ih (s + 1) (fun u hu1 hu2 => h u (by omega) (by omega))

theorem find?_range'_eq_some (p : Nat → Bool) (t : Nat) (ht : p t = true) : ∀ (n s : Nat),
    s ≤ t → t < s + n → (∀ u, s ≤ u → u < t → p u = false) →
    (List.range' s n).find? p = some t := by
  intro n
  induction n with
  | zero => intro s h1 h2 _; omega
  | succ n ih =>
    intro s h1 h2 hnone
    rw [List.range'_succ]
    by_cases hs : s = t
    · subst hs
      simp only [List.find?_cons, ht]
    · have hlt : s < t := by omega
      simp only [List.find?_cons, hnone s (Nat.le_refl s) hlt]
      exact ih (s + 1) (by omega) (by omega) (fun u hu1 hu2 => hnone u (by omega) hu2)

theorem findSome?_range'_eq_none {β : Type} (f : Nat → Option β) : ∀ (n s : Nat),
    (∀ u, s ≤ u → u < s + n → f u = none) →
    (List.range' s n).findSome? f = none := by
  intro n
  induction n with
  | zero => intro s _; rfl
  | succ n ih =>
    intro s h
    rw [List.range'_succ]
    rw [List.findSome?_cons]
    rw [h s (Nat.le_refl s) (by omega)]
    exact ih (s + 1) (fun u hu1 hu2 => h u (by omega) (by omega))

theorem findSome?_range'_eq_some {β : Type} (f : Nat → Option β) (t : Nat) (b : β)
    (ht : f t = some b) : ∀ (n s : Nat),
    s ≤ t → t < s + n → (∀ u, s ≤ u → u < t → f u = none) →
    (List.range' s n).findSome? f = some b := by
  intro n
  induction n with
  | zero => intro s h1 h2 _; omega
  | succ n ih =>
    intro s h1 h2 hnone
    rw [List.range'_succ, List.findSome?_cons]
    by_cases hs : s = t
    · subst hs
      rw [ht]
    · have hlt : s < t := by omega
      rw [hnone s (Nat.le_refl s) hlt]
      exact ih (s + 1) (by omega) (by omega) (fun u hu1 hu2 => hnone u (by omega) hu2)

theorem searchTP_eq_none (name pattern : Str)
    (h : ∀ t p, 2 ≤ t → t < 100 → 1 ≤ p → p ≤ t →
      pyEndsWith name (mkSuffix pattern t p) = false) :
    searchTP name pattern = none := by
  unfold searchTP
  apply findSome?_range'_eq_none
  intro t ht1 ht2
  rw [find?_range'_eq_none _ t 1 (fun q hq1 hq2 => h t q ht1 (by omega) hq1 (by omega))]
  rfl

theorem searchTP_eq_some (name pattern : Str) (t p : Nat)
    (ht1 : 2 ≤ t) (ht2 : t < 100) (hp1 : 1 ≤ p) (hp2 : p ≤ t)
    (hfailT : ∀ t' p', 2 ≤ t' → t' < t → 1 ≤ p' → p' ≤ t' →
      pyEndsWith name (mkSuffix pattern t' p') = false)
    (hfailP : ∀ p', 1 ≤ p' → p' < p → pyEndsWith name (mkSuffix pattern t p') = false)
    (hfound : pyEndsWith name (mkSuffix pattern t p) = true) :
    searchTP name pattern = some (t, p) := by
  unfold searchTP
  apply findSome?_range'_eq_some _ t (t, p) ?_ 98 2 ht1 (by omega) ?_
  · rw [find?_range'_eq_some _ p hfound t 1 hp1 (by omega)
      (fun q hq1 hq2 => hfailP q hq1 hq2)]
    rfl
  · intro u hu1 hu2
    rw [find?_range'_eq_none _ u 1 (fun q hq1 hq2 => hfailT u q hu1 hu2 hq1 (by omega))]
    rfl

/-! ### Lengths of default-pattern suffixes -/

theorem natStr_len_bound : ∀ n, n < 100 → (natStr n).length = if n < 10 then 1 else 2 := by
  decide

theorem widthOf_small (t : Nat) (h : t < 10) : widthOf t = 0 := by
  unfold widthOf
  rw [if_neg (by omega)]

theorem widthOf_two (t : Nat) (h1 : 10 ≤ t) (h2 : t < 100) : widthOf t = 2 := by
  unfold widthOf
  rw [if_pos (by omega), natStr_len_bound t h2, if_neg (by omega)]

theorem numStr_zero_len (n : Nat) (h2 : n < 10) : (numStr 0 n).length = 1 := by
  unfold numStr
  rw [if_neg (by omega)]
  have h := natStr_len_bound n (by omega)
  rw [if_pos h2] at h
  exact h

theorem numStr_two_len (n : Nat) (h2 : n < 100) : (numStr 2 n).length = 2 := by
  unfold numStr pyPad
  rw [if_pos (by omega)]
  rw [List.length_append, List.length_replicate]
  have h := natStr_len_bound n h2
  by_cases hn : n < 10
  · rw [if_pos hn] at h; omega
  · rw [if_neg hn] at h; omega

theorem mkSuffix_default_len_small (t p : Nat) (h10 : t < 10) (hp10 : p < 10) :
    (mkSuffix defaultPat t p).length = 12 := by
  rw [mkSuffix_default, widthOf_small t h10]
  simp only [List.length_append, numStr_zero_len p hp10, numStr_zero_len t h10]
  rfl

theorem mkSuffix_default_len_large (t p : Nat) (h10 : 10 ≤ t) (h99 : t < 100)
    (hp : p < 100) : (mkSuffix defaultPat t p).length = 14 := by
  rw [mkSuffix_default, widthOf_two t h10 h99]
  simp only [List.length_append, numStr_two_len p hp, numStr_two_len t h99]
  rfl

theorem mkSuffix_default_len_ge (t p : Nat) (ht99 : t < 100) (hp : p < 100) :
    12 ≤ (mkSuffix defaultPat t p).length ∧ (mkSuffix defaultPat t p).length ≤ 14 := by
  by_cases h : t < 10
  · by_cases hp10 : p < 10
    · rw [mkSuffix_default_len_small t p h hp10]; omega
    · rw [mkSuffix_default, widthOf_small t h]
      simp only [List.length_append, numStr_zero_len t h]
      unfold numStr
      rw [if_neg (by omega)]
      have hl := natStr_len_bound p hp
      rw [if_neg hp10] at hl
      rw [hl]
      constructor <;> simp
  · rw [mkSuffix_default_len_large t p (by omega) ht99 hp]; omega

theorem searchTP_default_none_of_short (name : Str) (h : name.length < 12) :
    searchTP name defaultPat = none := by
  apply searchTP_eq_none
  intro t p ht1 ht2 hp1 hp2
  apply pyEndsWith_false_of_lt
  have hge := (mkSuffix_default_len_ge t p ht2 (by omega)).1
  omega

/-! ### The round-trip analysis for the default pattern -/

theorem drop_append_left (a b : Str) (k : Nat) (h : k ≤ a.length) :
    (a ++ b).drop k = a.drop k ++ b := by
  have he : a ++ b = a.take k ++ (a.drop k ++ b) := by
    rw [← List.append_assoc, List.take_append_drop]
  rw [he, List.drop_left' (by rw [List.length_take]; omega)]

theorem mkSuffix_default_parts_eq (t p t' p' : Nat)
    (hlenP : (numStr (widthOf t) p).length = (numStr (widthOf t') p').length)
    (he : mkSuffix defaultPat t p = mkSuffix defaultPat t' p') :
    numStr (widthOf t) p = numStr (widthOf t') p'
      ∧ numStr (widthOf t) t = numStr (widthOf t') t' := by
  rw [mkSuffix_default, mkSuffix_default] at he
  simp only [List.append_assoc] at he
  have h1 := List.append_cancel_left he
  have h2 := List.append_inj h1 hlenP
  exact ⟨h2.1, List.append_cancel_left h2.2⟩

theorem sfx_default_fail (base : Str) (t p t' p' : Nat)
    (ht2 : 2 ≤ t) (ht99 : t < 100) (hp1 : 1 ≤ p) (hpt : p ≤ t)
    (ht'2 : 2 ≤ t') (hp'1 : 1 ≤ p') (hp't : p' ≤ t')
    (hord : t' < t ∨ (t' = t ∧ p' < p)) :
    pyEndsWith (base ++ mkSuffix defaultPat t p) (mkSuffix defaultPat t' p') = false := by
  have ht'99 : t' < 100 := by omega
  by_cases hT : t < 10
  · have ht'10 : t' < 10 := by omega
    have hlen : (mkSuffix defaultPat t p).length = 12 :=
      mkSuffix_default_len_small t p hT (by omega)
    have hlen' : (mkSuffix defaultPat t' p').length = 12 :=
      mkSuffix_default_len_small t' p' ht'10 (by omega)
    rw [pyEndsWith_append_absorb _ _ _ (by omega)]
    by_contra hne
    rw [Bool.not_eq_false] at hne
    have heq := (pyEndsWith_iff_of_length_eq _ _ (by omega)).mp hne
    have hw : widthOf t = 0 := widthOf_small t hT
    have hw' : widthOf t' = 0 := widthOf_small t' ht'10
    have hlp : (numStr (widthOf t) p).length = (numStr (widthOf t') p').length := by
      rw [hw, hw', numStr_zero_len p (by omega), numStr_zero_len p' (by omega)]
    obtain ⟨hP, hT2⟩ := mkSuffix_default_parts_eq t p t' p' hlp heq
    rw [hw, hw'] at hP hT2
    have htt : t = t' := numStr_inj 0 t t' (by omega) (by omega) hT2
    have hpp : p = p' := numStr_inj 0 p p' hp1 hp'1 hP
    omega
  · have hlen : (mkSuffix defaultPat t p).length = 14 :=
      mkSuffix_default_len_large t p (by omega) ht99 (by omega)
    by_cases hT' : t' < 10
    · have hlen' : (mkSuffix defaultPat t' p').length = 12 :=
        mkSuffix_default_len_small t' p' hT' (by omega)
      rw [pyEndsWith_append_absorb _ _ _ (by omega)]
      unfold pyEndsWith
      rw [hlen, hlen']
      refine beq_eq_false_iff_ne.mpr ?_
      intro he
      rw [show (14 - 12 : Nat) = 2 from rfl] at he
      have hd : (mkSuffix defaultPat t p).drop 2
          = ['a', 'r', 't', '_'] ++ (numStr (widthOf t) p
              ++ (['_', 'o', 'f', '_'] ++ numStr (widthOf t) t)) := by
        rw [mkSuffix_default]
        simp only [List.append_assoc]
        rw [drop_append_left _ _ 2 (by simp)]
        rfl
      rw [hd, mkSuffix_default] at he
      simp only [List.cons_append, List.nil_append] at he
      injection he with h1 _
      exact absurd h1 (by decide)
    · have hlen' : (mkSuffix defaultPat t' p').length = 14 :=
        mkSuffix_default_len_large t' p' (by omega) ht'99 (by omega)
      rw [pyEndsWith_append_absorb _ _ _ (by omega)]
      by_contra hne
      rw [Bool.not_eq_false] at hne
      have heq := (pyEndsWith_iff_of_length_eq _ _ (by omega)).mp hne
      have hw : widthOf t = 2 := widthOf_two t (by omega) ht99
      have hw' : widthOf t' = 2 := widthOf_two t' (by omega) ht'99
      have hlp : (numStr (widthOf t) p).length = (numStr (widthOf t') p').length := by
        rw [hw, hw', numStr_two_len p (by omega), numStr_two_len p' (by omega)]
      obtain ⟨hP, hT2⟩ := mkSuffix_default_parts_eq t p t' p' hlp heq
      rw [hw, hw'] at hP hT2
      have htt : t = t' := numStr_inj 2 t t' (by omega) (by omega) hT2
      have hpp : p = p' := numStr_inj 2 p p' hp1 hp'1 hP
      omega

theorem searchTP_roundtrip (base : Str) (t p : Nat)
    (ht2 : 2 ≤ t) (ht99 : t ≤ 99) (hp1 : 1 ≤ p) (hpt : p ≤ t) :
    searchTP (base ++ mkSuffix defaultPat t p) defaultPat = some (t, p) := by
  apply searchTP_eq_some _ _ t p ht2 (by omega) hp1 hpt
  · intro t' p' h1 h2 h3 h4
    exact sfx_default_fail base t p t' p' ht2 (by omega) hp1 hpt h1 h3 h4 (Or.inl h2)
  · intro p' h1 h2
    exact sfx_default_fail base t p t p' ht2 (by omega) hp1 hpt ht2 h1 (by omega)
      (Or.inr ⟨rfl, h2⟩)
  · exact pyEndsWith_append_self _ _

theorem recognizeTriple_roundtrip (base r : Str) (t p : Nat)
    (ht2 : 2 ≤ t) (ht99 : t ≤ 99) (hp1 : 1 ≤ p) (hpt : p ≤ t) (hr : '.' ∉ r) :
    recognizeTriple (format_part_filename base ('.' :: r) p t defaultPat) defaultPat
      = some (base, t, p) := by
  unfold format_part_filename recognizeTriple
  have hsp : splitExt ((base ++ mkSuffix defaultPat t p) ++ '.' :: r)
      = (base ++ mkSuffix defaultPat t p, '.' :: r) := by
    apply splitExt_of_clean
    · refine ⟨'_', ?_, by decide⟩
      apply List.mem_append.mpr
      right
      rw [mkSuffix_default]
      simp
    · exact hr
  rw [hsp, searchTP_roundtrip base t p ht2 ht99 hp1 hpt]
  have hslice : pySliceUpToNeg (base ++ mkSuffix defaultPat t p)
      (mkSuffix defaultPat t p).length = base := by
    unfold pySliceUpToNeg
    have hne : (mkSuffix defaultPat t p).length ≠ 0 := by
      have := (mkSuffix_default_len_ge t p (by omega) (by omega)).1
      omega
    rw [if_neg hne, List.length_append, Nat.add_sub_cancel, List.take_left]
  simp [hslice]

/-! ### Injectivity of the index-to-name mapping -/

theorem pyJoin_inj_right (d n₁ n₂ : Str) (h : pyJoin d n₁ = pyJoin d n₂) : n₁ = n₂ := by
  unfold pyJoin at h
  by_cases hd : d = []
  · rwa [if_pos hd, if_pos hd] at h
  · rw [if_neg hd, if_neg hd] at h
    have h2 := List.append_cancel_left h
    injection h2

theorem format_part_filename_inj (base ext target : Str) (total : Nat) (pattern : Str)
    (i j : Nat)
    (hsfx : mkSuffix pattern total i = mkSuffix pattern total j → i = j)
    (h : pyJoin target (format_part_filename base ext i total pattern)
       = pyJoin target (format_part_filename base ext j total pattern)) : i = j := by
  apply hsfx
  have h1 := pyJoin_inj_right _ _ _ h
  unfold format_part_filename at h1
  have h2 := List.append_cancel_right h1
  exact List.append_cancel_left h2

theorem mkSuffix_form2_inj (A B C : Str)
    (hA : ∀ x ∈ A, x ≠ '#') (hB : ∀ x ∈ B, x ≠ '#') (hC : ∀ x ∈ C, x ≠ '#')
    (hBne : B ≠ []) (total i j : Nat) (hi : 1 ≤ i) (hj : 1 ≤ j)
    (h : mkSuffix (A ++ '#' :: (B ++ '#' :: '#' :: C)) total i
       = mkSuffix (A ++ '#' :: (B ++ '#' :: '#' :: C)) total j) : i = j := by
  rw [mkSuffix_form2 A B C hA hB hC hBne total i,
      mkSuffix_form2 A B C hA hB hC hBne total j] at h
  have h1 := List.append_cancel_right h
  have h2 := List.append_cancel_right h1
  have h3 := List.append_cancel_right h2
  exact numStr_inj _ i j hi hj (List.append_cancel_left h3)

theorem mkSuffix_form1_inj (A B C : Str)
    (hA : ∀ x ∈ A, x ≠ '#') (hB : ∀ x ∈ B, x ≠ '#') (hC : ∀ x ∈ C, x ≠ '#')
    (total i j : Nat) (hi : 1 ≤ i) (hj : 1 ≤ j)
    (h : mkSuffix (A ++ '#' :: '#' :: (B ++ '#' :: C)) total i
       = mkSuffix (A ++ '#' :: '#' :: (B ++ '#' :: C)) total j) : i = j := by
  rw [mkSuffix_form1 A B C hA hB hC total i, mkSuffix_form1 A B C hA hB hC total j] at h
  have h1 := List.append_cancel_right h
  exact numStr_inj _ i j hi hj (List.append_cancel_left h1)

theorem mkSuffix_form2nil_inj (A C : Str)
    (hA : ∀ x ∈ A, x ≠ '#') (hC : ∀ x ∈ C, x ≠ '#')
    (total i j : Nat) (hi : 1 ≤ i) (hj : 1 ≤ j)
    (h : mkSuffix (A ++ '#' :: '#' :: '#' :: C) total i
       = mkSuffix (A ++ '#' :: '#' :: '#' :: C) total j) : i = j := by
  rw [mkSuffix_form2nil A C hA hC total i, mkSuffix_form2nil A C hA hC total j] at h
  have h1 := List.append_cancel_right h
  exact numStr_inj _ i j hi hj (List.append_cancel_left h1)

/-! ### Lemmas about the classification pass -/

theorem is_already_of_mem (f pattern : Str) (h : '#' ∈ pattern) :
    is_already_a_part f pattern = (searchTP (splitExt f).1 pattern).isSome := by
  unfold is_already_a_part
  rw [if_pos h]

theorem is_already_of_not_mem (f pattern : Str) (h : '#' ∉ pattern) :
    is_already_a_part f pattern = false := by
  unfold is_already_a_part
  rw [if_neg h]

theorem searchTP_none_of_not_already (f pattern : Str) (hm : '#' ∈ pattern)
    (h : is_already_a_part f pattern = false) :
    searchTP (splitExt f).1 pattern = none := by
  rw [is_already_of_mem f pattern hm] at h
  cases ho : searchTP (splitExt f).1 pattern with
  | none => rfl
  | some v => rw [ho] at h; simp at h

theorem get_base_none_of_searchTP (f pattern : Str)
    (h : searchTP (splitExt f).1 pattern = none) :
    get_base_name_without_suffix f pattern = none := by
  unfold get_base_name_without_suffix
  rw [h]
  rfl

theorem check_and_move_of_base_none (st : St) (video targetDir pattern sourceDir : Str)
    (mv : Bool) (h : get_base_name_without_suffix (basename video) pattern = none) :
    check_and_move_original_if_parts_complete st video targetDir pattern sourceDir mv
      = (false, st) := by
  unfold check_and_move_original_if_parts_complete
  rw [h]

/-- The flag-free tail of `main`'s classification (everything after the two
skip checks); used to characterise `classify_candidate`. -/
def classifyPureTail (pattern : Str) (partsArg : Nat) (maxB : Option ℚ) (targetDir : Str)
    (size : Str → Nat) (st : St) (video : Str) : PClass :=
  match maxB with
  | some m =>
    if (size video : ℚ) ≤ m then .tooSmall
    else
      classifySplitTail pattern targetDir st video
        (calculate_parts_from_target_size (size video) m).toNat
  | none => classifySplitTail pattern targetDir st video partsArg

theorem classify_candidate_already (pattern : Str) (partsArg : Nat) (maxB : Option ℚ)
    (targetDir : Str) (m d : Bool) (size : Str → Nat) (st : St) (video sourceDir : Str)
    (h : is_already_a_part (basename video) pattern = true) :
    classify_candidate pattern partsArg maxB targetDir m d size st video sourceDir
      = (.alreadyPart, st) := by
  unfold classify_candidate
  rw [h]
  simp

theorem classify_candidate_of_base_none (pattern : Str) (partsArg : Nat) (maxB : Option ℚ)
    (targetDir : Str) (m d : Bool) (size : Str → Nat) (st : St) (video sourceDir : Str)
    (ha : is_already_a_part (basename video) pattern = false)
    (hgb : get_base_name_without_suffix (basename video) pattern = none) :
    classify_candidate pattern partsArg maxB targetDir m d size st video sourceDir
      = (classifyPureTail pattern partsArg maxB targetDir size st video, st) := by
  unfold classify_candidate
  rw [ha]
  simp only [Bool.false_eq_true, if_false]
  rw [check_and_move_of_base_none st video targetDir pattern sourceDir _ hgb]
  simp only [Bool.false_eq_true, if_false]
  unfold classifyPureTail
  cases maxB with
  | none => rfl
  | some m => by_cases hs : (size video : ℚ) ≤ m <;> simp [hs]

theorem classify_candidate_hash (pattern : Str) (partsArg : Nat) (maxB : Option ℚ)
    (targetDir : Str) (m₁ d₁ m₂ d₂ : Bool) (size : Str → Nat) (st : St)
    (video sourceDir : Str) (hm : '#' ∈ pattern) :
    classify_candidate pattern partsArg maxB targetDir m₁ d₁ size st video sourceDir
      = classify_candidate pattern partsArg maxB targetDir m₂ d₂ size st video sourceDir
    ∧ (classify_candidate pattern partsArg maxB targetDir m₁ d₁ size st video sourceDir).2
      = st := by
  by_cases ha : is_already_a_part (basename video) pattern = true
  · rw [classify_candidate_already _ _ _ _ _ _ _ _ _ _ ha,
      classify_candidate_already _ _ _ _ _ _ _ _ _ _ ha]
    exact ⟨rfl, rfl⟩
  · rw [Bool.not_eq_true] at ha
    have hgb : get_base_name_without_suffix (basename video) pattern = none :=
      get_base_none_of_searchTP _ _ (searchTP_none_of_not_already _ _ hm ha)
    rw [classify_candidate_of_base_none _ _ _ _ _ _ _ _ _ _ ha hgb,
      classify_candidate_of_base_none _ _ _ _ _ _ _ _ _ _ ha hgb]
    exact ⟨rfl, rfl⟩

theorem classify_candidate_not_already (pattern : Str) (partsArg : Nat) (maxB : Option ℚ)
    (targetDir : Str) (m d : Bool) (size : Str → Nat) (st : St) (video sourceDir : Str)
    (ha : is_already_a_part (basename video) pattern = false) :
    (classify_candidate pattern partsArg maxB targetDir m d size st video sourceDir).1
      ≠ PClass.alreadyPart := by
  unfold classify_candidate
  rw [ha]
  simp only [Bool.false_eq_true, if_false]
  by_cases hc : (check_and_move_original_if_parts_complete st video targetDir pattern
      sourceDir (m && !d)).1 = true
  · simp only [hc, if_true]
    simp
  · rw [Bool.not_eq_true] at hc
    simp only [hc, Bool.false_eq_true, if_false]
    cases maxB with
    | none =>
      unfold classifySplitTail
      by_cases hl : (get_existing_parts st.fs (expectedOf video targetDir pattern partsArg)).length
          = partsArg <;> simp [hl]
    | some mx =>
      by_cases hs : (size video : ℚ) ≤ mx
      · simp [hs]
      · simp only [hs, if_false]
        unfold classifySplitTail
        by_cases hl : (get_existing_parts st.fs (expectedOf video targetDir pattern
            ((calculate_parts_from_target_size (size video) mx).toNat))).length
            = (calculate_parts_from_target_size (size video) mx).toNat <;> simp [hl]

theorem classify_candidate_hash_no_automove (pattern : Str) (partsArg : Nat)
    (maxB : Option ℚ) (targetDir : Str) (m d : Bool) (size : Str → Nat) (st : St)
    (video sourceDir : Str) (hm : '#' ∈ pattern) :
    (classify_candidate pattern partsArg maxB targetDir m d size st video sourceDir).1
      ≠ PClass.autoMove := by
  by_cases ha : is_already_a_part (basename video) pattern = true
  · rw [classify_candidate_already _ _ _ _ _ _ _ _ _ _ ha]
    simp
  · rw [Bool.not_eq_true] at ha
    have hgb : get_base_name_without_suffix (basename video) pattern = none :=
      get_base_none_of_searchTP _ _ (searchTP_none_of_not_already _ _ hm ha)
    rw [classify_candidate_of_base_none _ _ _ _ _ _ _ _ _ _ ha hgb]
    unfold classifyPureTail
    cases maxB with
    | none =>
      unfold classifySplitTail
      by_cases hl : (get_existing_parts st.fs (expectedOf video targetDir pattern partsArg)).length
          = partsArg <;> simp [hl]
    | some mx =>
      by_cases hs : (size video : ℚ) ≤ mx
      · simp [hs]
      · simp only [hs, if_false]
        unfold classifySplitTail
        by_cases hl : (get_existing_parts st.fs (expectedOf video targetDir pattern
            ((calculate_parts_from_target_size (size video) mx).toNat))).length
            = (calculate_parts_from_target_size (size video) mx).toNat <;> simp [hl]

theorem classify_all_hash (pattern : Str) (partsArg : Nat) (maxB : Option ℚ)
    (targetDir : Str) (m₁ d₁ m₂ d₂ : Bool) (size : Str → Nat) (hm : '#' ∈ pattern) :
    ∀ (cands : List (Str × Str)) (st : St),
    classify_all pattern partsArg maxB targetDir m₁ d₁ size cands st
      = classify_all pattern partsArg maxB targetDir m₂ d₂ size cands st
    ∧ (classify_all pattern partsArg maxB targetDir m₁ d₁ size cands st).2 = st := by
  intro cands
  induction cands with
  | nil => intro st; exact ⟨rfl, rfl⟩
  | cons c rest ih =>
    intro st
    have hc := classify_candidate_hash pattern partsArg maxB targetDir m₁ d₁ m₂ d₂
      size st c.1 c.2 hm
    have hst2 : (classify_candidate pattern partsArg maxB targetDir m₂ d₂ size st c.1 c.2).2
        = st := by
      rw [← hc.1]
      exact hc.2
    obtain ⟨ih1, ih2⟩ := ih st
    simp only [classify_all]
    rw [hc.1, hst2, ih1]
    refine ⟨rfl, ?_⟩
    rw [← ih1]
    simpa using ih2

/-! ### Lemmas about the execution pass -/

theorem runParts_input (ok : FfCmd → Bool) (input : Str) (pd : ℚ) (n : Nat)
    (expected : List Str) : ∀ (missing : List Nat) (fs : List Str) (c : FfCmd),
    c ∈ (runParts ok input pd n expected missing fs).1 → c.input = input := by
  intro missing
  induction missing with
  | nil =>
    intro fs c hc
    simp [runParts] at hc
  | cons i rest ih =>
    intro fs c hc
    simp only [runParts] at hc
    by_cases ho : ok (mkCmd input pd n i (expected.getD i [])) = true
    · simp only [ho, if_true, List.mem_cons] at hc
      rcases hc with rfl | hc
      · rfl
      · exact ih _ c hc
    · rw [Bool.not_eq_true] at ho
      simp only [ho, Bool.false_eq_true, if_false, List.mem_singleton] at hc
      subst hc
      rfl

theorem split_cmds_input (ok : FfCmd → Bool) (dur : Str → ℚ) (input : Str) (n : Nat)
    (tg pat src : Str) (mv : Bool) (st : St) :
    ∀ c ∈ (split_with_ffmpeg ok dur input n tg pat src mv st).cmds, c.input = input := by
  intro c hc
  unfold split_with_ffmpeg at hc
  by_cases h1 : is_already_a_part (basename input) pat = true
  · rw [h1] at hc
    simp at hc
  · rw [Bool.not_eq_true] at h1
    rw [h1] at hc
    simp only [Bool.false_eq_true, if_false] at hc
    by_cases h2 : missingOf st.fs (expectedOf input tg pat n) n = []
    · rw [if_pos h2] at hc
      simp at hc
    · rw [if_neg h2] at hc
      by_cases h3 : (runParts ok input (dur input / n) n (expectedOf input tg pat n)
          (missingOf st.fs (expectedOf input tg pat n) n) st.fs).2.2 = true
      · simp only [h3, if_true] at hc
        exact runParts_input ok input _ n _ _ _ c hc
      · rw [Bool.not_eq_true] at h3
        simp only [h3, Bool.false_eq_true, if_false] at hc
        by_cases h4 : (get_existing_parts (runParts ok input (dur input / n) n
            (expectedOf input tg pat n) (missingOf st.fs (expectedOf input tg pat n) n)
            st.fs).2.1 (expectedOf input tg pat n)).length = n
        · simp only [h4, if_true] at hc
          exact runParts_input ok input _ n _ _ _ c hc
        · simp only [h4, if_false] at hc
          exact runParts_input ok input _ n _ _ _ c hc

theorem split_ret_none_log (ok : FfCmd → Bool) (dur : Str → ℚ) (input : Str) (n : Nat)
    (tg pat src : Str) (mv : Bool) (st : St)
    (h : (split_with_ffmpeg ok dur input n tg pat src mv st).ret = none) :
    (split_with_ffmpeg ok dur input n tg pat src mv st).st.log = st.log := by
  unfold split_with_ffmpeg at h ⊢
  by_cases h1 : is_already_a_part (basename input) pat = true
  · rw [h1] at h
    simp at h
  · rw [Bool.not_eq_true] at h1
    rw [h1] at h ⊢
    simp only [Bool.false_eq_true, if_false] at h ⊢
    by_cases h2 : missingOf st.fs (expectedOf input tg pat n) n = []
    · rw [if_pos h2] at h
      simp at h
    · rw [if_neg h2] at h ⊢
      by_cases h3 : (runParts ok input (dur input / n) n (expectedOf input tg pat n)
          (missingOf st.fs (expectedOf input tg pat n) n) st.fs).2.2 = true
      · simp only [h3, if_true] at h ⊢
      · rw [Bool.not_eq_true] at h3
        simp only [h3, Bool.false_eq_true, if_false] at h
        by_cases h4 : (get_existing_parts (runParts ok input (dur input / n) n
            (expectedOf input tg pat n) (missingOf st.fs (expectedOf input tg pat n) n)
            st.fs).2.1 (expectedOf input tg pat n)).length = n
        · simp only [h4, if_true] at h
          simp at h
        · simp only [h4, if_false] at h
          simp at h

theorem exec_all_cons_exit (ok : FfCmd → Bool) (dur : Str → ℚ) (pat tg : Str) (mv : Bool)
    (j : Str × Str × Nat) (jobs : List (Str × Str × Nat)) (st : St)
    (hpre : (get_existing_parts st.fs (expectedOf j.1 tg pat j.2.2)).length ≠ j.2.2)
    (hexit : (split_with_ffmpeg ok dur j.1 j.2.2 tg pat j.2.1 mv st).ret = none) :
    exec_all ok dur pat tg mv (j :: jobs) st
      = ((split_with_ffmpeg ok dur j.1 j.2.2 tg pat j.2.1 mv st).cmds,
         (split_with_ffmpeg ok dur j.1 j.2.2 tg pat j.2.1 mv st).st, true) := by
  simp only [exec_all, exec_step]
  rw [if_neg hpre]
  simp only [hexit, Option.isNone_none, if_true]

theorem exec_all_inputs (ok : FfCmd → Bool) (dur : Str → ℚ) (pat tg : Str) (mv : Bool) :
    ∀ (jobs : List (Str × Str × Nat)) (st : St) (c : FfCmd),
    c ∈ (exec_all ok dur pat tg mv jobs st).1 → ∃ j ∈ jobs, c.input = j.1 := by
  intro jobs
  induction jobs with
  | nil =>
    intro st c hc
    simp [exec_all] at hc
  | cons j js ih =>
    intro st c hc
    simp only [exec_all, exec_step] at hc
    by_cases h1 : (get_existing_parts st.fs (expectedOf j.1 tg pat j.2.2)).length = j.2.2
    · rw [if_pos h1] at hc
      simp only [Bool.false_eq_true, if_false] at hc
      simp only [List.nil_append] at hc
      obtain ⟨j', hj', he⟩ := ih _ c hc
      exact ⟨j', by simp [hj'], he⟩
    · rw [if_neg h1] at hc
      by_cases h2 : ((split_with_ffmpeg ok dur j.1 j.2.2 tg pat j.2.1 mv st).ret).isNone = true
      · simp only [h2, if_true] at hc
        exact ⟨j, by simp, split_cmds_input ok dur j.1 j.2.2 tg pat j.2.1 mv st c hc⟩
      · simp only [h2, Bool.false_eq_true, if_false, List.mem_append] at hc
        rcases hc with hc | hc
        · exact ⟨j, by simp, split_cmds_input ok dur j.1 j.2.2 tg pat j.2.1 mv st c hc⟩
        · obtain ⟨j', hj', he⟩ := ih _ c hc
          exact ⟨j', by simp [hj'], he⟩

/-! ### The resume scenario for a four-part job -/

theorem split_resume4_gen (ok : FfCmd → Bool) (dur : Str → ℚ) (input tg pat src : Str)
    (st : St) (a b c d : Str)
    (hE : expectedOf input tg pat 4 = [a, b, c, d])
    (ha : is_already_a_part (basename input) pat = false)
    (h0 : a ∈ st.fs) (h1 : b ∈ st.fs) (h2 : c ∈ st.fs) (h3 : d ∉ st.fs)
    (hok : ok (mkCmd input (dur input / ((4 : Nat) : ℚ)) 4 3 d) = true) :
    split_with_ffmpeg ok dur input 4 tg pat src false st
      = ⟨[mkCmd input (dur input / ((4 : Nat) : ℚ)) 4 3 d],
         ⟨d :: st.fs, st.log ++ [LogEntry.completed input 4]⟩,
         some ([a, b, c, d], SplitStatus.resume)⟩ := by
  have hd0 : d ≠ a := fun he => h3 (he ▸ h0)
  have hd1 : d ≠ b := fun he => h3 (he ▸ h1)
  have hd2 : d ≠ c := fun he => h3 (he ▸ h2)
  have hex : get_existing_parts st.fs [a, b, c, d] = [a, b, c] := by
    unfold get_existing_parts
    simp [List.filter, h0, h1, h2, h3]
  have hmiss : missingOf st.fs [a, b, c, d] 4 = [3] := by
    unfold missingOf
    rw [hex]
    rw [show List.range 4 = [0, 1, 2, 3] from rfl]
    simp [List.filter, hd0, hd1, hd2]
  have hfin : get_existing_parts (d :: st.fs) [a, b, c, d] = [a, b, c, d] := by
    unfold get_existing_parts
    simp [List.filter, List.mem_cons, h0, h1, h2]
  unfold split_with_ffmpeg
  rw [ha]
  simp only [Bool.false_eq_true, if_false]
  rw [hE, hmiss, hex]
  rw [if_neg (by simp : ¬([3] : List Nat) = [])]
  have hrun : runParts ok input (dur input / ((4 : Nat) : ℚ)) 4 [a, b, c, d] [3] st.fs
      = ([mkCmd input (dur input / ((4 : Nat) : ℚ)) 4 3 d], d :: st.fs, false) := by
    simp only [runParts]
    rw [show ([a, b, c, d] : List Str).getD 3 [] = d from rfl]
    rw [hok]
    simp [runParts, mkCmd]
  rw [hrun]
  simp only [Bool.false_eq_true, if_false]
  rw [hfin]
  rw [if_pos (by simp : ([a, b, c, d] : List Str).length = 4)]
  simp

theorem pyEndsWith_default_false_head (name : Str) (t p : Nat)
    (h10 : 10 ≤ t) (ht99 : t < 100) (hp : p < 100)
    (hd : (name.drop (name.length - 14)).take 1 ≠ ['_']) :
    pyEndsWith name (mkSuffix defaultPat t p) = false := by
  unfold pyEndsWith
  rw [mkSuffix_default_len_large t p h10 ht99 hp]
  refine beq_eq_false_iff_ne.mpr ?_
  intro he
  apply hd
  rw [he, mkSuffix_default]
  rfl

theorem classify_all_hash_map (pattern : Str) (partsArg : Nat) (maxB : Option ℚ)
    (targetDir : Str) (m d : Bool) (size : Str → Nat) (hm : '#' ∈ pattern) :
    ∀ (cands : List (Str × Str)) (st : St),
    (classify_all pattern partsArg maxB targetDir m d size cands st).1
      = cands.map (fun x =>
          (classify_candidate pattern partsArg maxB targetDir m d size st x.1 x.2).1) := by
  intro cands
  induction cands with
  | nil => intro st; rfl
  | cons cnd rest ih =>
    intro st
    simp only [classify_all, List.map_cons]
    have hst := (classify_candidate_hash pattern partsArg maxB targetDir m d m d
      size st cnd.1 cnd.2 hm).2
    rw [hst, ih st]

theorem mainModel_classes (ok : FfCmd → Bool) (size : Str → Nat) (dur : Str → ℚ)
    (pattern : Str) (partsArg : Nat) (maxB : Option ℚ) (targetDir : Str) (m d : Bool)
    (cands : List (Str × Str)) (st : St) :
    (mainModel ok size dur pattern partsArg maxB targetDir m d cands st).classes
      = (classify_all pattern partsArg maxB targetDir m d size cands st).1 := by
  unfold mainModel
  by_cases hd : d = true
  · rw [hd]; simp
  · rw [Bool.not_eq_true] at hd
    rw [hd]
    simp

theorem classify_all_cons (pattern : Str) (partsArg : Nat) (maxB : Option ℚ)
    (targetDir : Str) (m d : Bool) (size : Str → Nat) (v s : Str)
    (rest : List (Str × Str)) (st : St) :
    classify_all pattern partsArg maxB targetDir m d size ((v, s) :: rest) st
      = ((classify_candidate pattern partsArg maxB targetDir m d size st v s).1
          :: (classify_all pattern partsArg maxB targetDir m d size rest
              (classify_candidate pattern partsArg maxB targetDir m d size st v s).2).1,
         (classify_all pattern partsArg maxB targetDir m d size rest
              (classify_candidate pattern partsArg maxB targetDir m d size st v s).2).2) := rfl

theorem classify_all_nil (pattern : Str) (partsArg : Nat) (maxB : Option ℚ)
    (targetDir : Str) (m d : Bool) (size : Str → Nat) (st : St) :
    classify_all pattern partsArg maxB targetDir m d size [] st = ([], st) := rfl


/-! ## The claims -/

/-- C2: Size-bound planning: for every file size and positive byte limit with
`size > maxBytesPerPart`, `calculate_parts_from_target_size` returns exactly
`ceil(size / (0.98 × maxBytesPerPart))`, and that value is at least 2. -/
theorem c2_theorem : ∀ (size : Nat) (maxB : ℚ), 0 < maxB → maxB < (size : ℚ) →
    calculate_parts_from_target_size size maxB
      = Int.ceil ((size : ℚ) / ((98 / 100 : ℚ) * maxB))
    ∧ 2 ≤ calculate_parts_from_target_size size maxB := by
  intro size maxB hpos hlt
  unfold calculate_parts_from_target_size
  rw [if_neg (not_le.mpr hlt)]
  have hsafe : (0 : ℚ) < maxB * (98 / 100) := by positivity
  have hgt1 : (1 : ℚ) < (size : ℚ) / (maxB * (98 / 100)) := by
    rw [lt_div_iff₀ hsafe]
    nlinarith [hlt, hpos]
  have hceil2 : 2 ≤ Int.ceil ((size : ℚ) / (maxB * (98 / 100))) := by
    have h1 : (1 : Int) < Int.ceil ((size : ℚ) / (maxB * (98 / 100))) :=
      Int.lt_ceil.mpr (by exact_mod_cast hgt1)
    omega
  constructor
  · simp only [max_eq_left hceil2]
    rw [mul_comm]
  · exact le_max_right _ _

/-- C2 witness: the 1050 MB / 500 MB instance, yielding 3 parts. -/
theorem c2_witness :
    (0 : ℚ) < 524288000 ∧ (524288000 : ℚ) < ((1101004800 : Nat) : ℚ)
    ∧ calculate_parts_from_target_size 1101004800 524288000
        = Int.ceil (((1101004800 : Nat) : ℚ) / ((98 / 100 : ℚ) * 524288000))
    ∧ 2 ≤ calculate_parts_from_target_size 1101004800 524288000
    ∧ calculate_parts_from_target_size 1101004800 524288000 = 3 := by
  have h := c2_theorem 1101004800 524288000 (by norm_num) (by norm_num)
  refine ⟨by norm_num, by norm_num, h.1, h.2, ?_⟩
  rw [h.1]
  rw [Int.ceil_eq_iff]
  constructor <;> norm_num

/-- C9: per-part time ranges: the command the engine builds for 0-indexed
part `i` of an `n`-part job with duration `d` starts at offset `i × (d/n)`;
it carries the explicit bound `-t (d/n)` exactly when `i < n - 1`, and the
last part (`i = n - 1`) carries no stop bound.  Every command issued by the
`runParts` loop is such an `mkCmd` for one of the missing indices. -/
theorem c9_theorem :
    (∀ (input out : Str) (d : ℚ) (n i : Nat), i < n →
      (mkCmd input (d / n) n i out).start = i * (d / n)
      ∧ (i < n - 1 → (mkCmd input (d / n) n i out).tBound = some (d / n))
      ∧ (i = n - 1 → (mkCmd input (d / n) n i out).tBound = none))
    ∧ (∀ (ok : FfCmd → Bool) (input : Str) (pd : ℚ) (n : Nat) (expected : List Str)
        (missing : List Nat) (fs : List Str) (c : FfCmd),
        c ∈ (runParts ok input pd n expected missing fs).1 →
        ∃ i ∈ missing, c = mkCmd input pd n i (expected.getD i [])) := by
  constructor
  · intro input out d n i _
    refine ⟨mul_comm _ _, ?_, ?_⟩
    · intro hlt
      unfold mkCmd
      rw [if_pos hlt]
    · intro heq
      unfold mkCmd
      rw [if_neg (by omega)]
  · intro ok input pd n expected missing
    induction missing with
    | nil =>
      intro fs c hc
      simp [runParts] at hc
    | cons i rest ih =>
      intro fs c hc
      simp only [runParts] at hc
      by_cases ho : ok (mkCmd input pd n i (expected.getD i [])) = true
      · simp only [ho, if_true, List.mem_cons] at hc
        rcases hc with rfl | hc
        · exact ⟨i, by simp, rfl⟩
        · obtain ⟨i', hi', he⟩ := ih _ c hc
          exact ⟨i', by simp [hi'], he⟩
      · rw [Bool.not_eq_true] at ho
        simp only [ho, Bool.false_eq_true, if_false, List.mem_singleton] at hc
        subst hc
        exact ⟨i, by simp, rfl⟩

/-- C9 witness: the two-part, duration-10 instance at the last part. -/
theorem c9_witness :
    (1 : Nat) < 2
    ∧ (mkCmd (str "a") ((10 : ℚ) / ((2 : Nat) : ℚ)) 2 1 (str "o")).start
        = ((1 : Nat) : ℚ) * ((10 : ℚ) / ((2 : Nat) : ℚ))
    ∧ ((1 : Nat) = 2 - 1 →
        (mkCmd (str "a") ((10 : ℚ) / ((2 : Nat) : ℚ)) 2 1 (str "o")).tBound = none) := by
  have h := c9_theorem.1 (str "a") (str "o") 10 2 1 (by omega)
  exact ⟨by omega, h.1, h.2.2⟩

/-- C10: a pattern without `'#'` makes `is_already_a_part` return `false`
for every filename, so no candidate is ever classified already-a-part under
such a pattern — while `get_base_name_without_suffix` lacks this guard and
still matches a name ending in the literal pattern (shown on `x_d.mp4` with
pattern `_d`). -/
theorem c10_theorem :
    (∀ (filename pattern : Str), '#' ∉ pattern → is_already_a_part filename pattern = false)
    ∧ (∀ (pattern : Str) (partsArg : Nat) (maxB : Option ℚ) (targetDir : Str) (m d : Bool)
        (size : Str → Nat) (st : St) (video sourceDir : Str), '#' ∉ pattern →
        (classify_candidate pattern partsArg maxB targetDir m d size st video sourceDir).1
          ≠ PClass.alreadyPart)
    ∧ get_base_name_without_suffix (str "x_d.mp4") (str "_d") = some (str "x") := by
  refine ⟨?_, ?_, ?_⟩
  · intro f pattern h
    exact is_already_of_not_mem f pattern h
  · intro pattern partsArg maxB targetDir m d size st video sourceDir h
    exact classify_candidate_not_already pattern partsArg maxB targetDir m d size st
      video sourceDir (is_already_of_not_mem _ _ h)
  · decide

/-- C10 witness: the guard at the hash-free pattern `_d`. -/
theorem c10_witness :
    '#' ∉ str "_d" ∧ is_already_a_part (str "a.mp4") (str "_d") = false
    ∧ (classify_candidate (str "_d") 2 none (str "t") false false (fun _ => 0)
        ⟨[], []⟩ (str "s/a.mp4") (str "s")).1 ≠ PClass.alreadyPart := by
  refine ⟨by decide, ?_, ?_⟩
  · exact c10_theorem.1 (str "a.mp4") (str "_d") (by decide)
  · exact c10_theorem.2.1 (str "_d") 2 none (str "t") false false (fun _ => 0)
      ⟨[], []⟩ (str "s/a.mp4") (str "s") (by decide)

/-- C5: naming injectivity: for a pattern made of one `'#'` token and one
`"##"` token embedded in hash-free text (in either order), fixed base name,
extension, target directory and total part count, two part indices in
`[1, total]` that generate the same filesystem path are equal. -/
theorem c5_theorem : ∀ (pattern A B C base ext target : Str) (total i j : Nat),
    (∀ x ∈ A, x ≠ '#') → (∀ x ∈ B, x ≠ '#') → (∀ x ∈ C, x ≠ '#') →
    (pattern = A ++ '#' :: '#' :: (B ++ '#' :: C)
      ∨ pattern = A ++ '#' :: (B ++ '#' :: '#' :: C)) →
    1 ≤ i → i ≤ total → 1 ≤ j → j ≤ total →
    pyJoin target (format_part_filename base ext i total pattern)
      = pyJoin target (format_part_filename base ext j total pattern) →
    i = j := by
  intro pattern A B C base ext target total i j hA hB hC hform hi _hi2 hj _hj2 heq
  rcases hform with rfl | rfl
  · exact format_part_filename_inj base ext target total _ i j
      (fun h => mkSuffix_form1_inj A B C hA hB hC total i j hi hj h) heq
  · cases B with
    | nil =>
      simp only [List.nil_append] at heq
      exact format_part_filename_inj base ext target total _ i j
        (fun h => mkSuffix_form2nil_inj A C hA hC total i j hi hj h)
        (by simpa using heq)
    | cons bb BB =>
      exact format_part_filename_inj base ext target total _ i j
        (fun h => mkSuffix_form2_inj A (bb :: BB) C hA hB hC (by simp) total i j hi hj h) heq

/-- C5 witness: the default pattern at total 3, indices 1 and 2. -/
theorem c5_witness :
    (∀ x ∈ str "_part_", x ≠ '#') ∧ (∀ x ∈ str "_of_", x ≠ '#')
    ∧ (defaultPat = str "_part_" ++ '#' :: '#' :: (str "_of_" ++ '#' :: ([] : Str))
        ∨ defaultPat = str "_part_" ++ '#' :: (str "_of_" ++ '#' :: '#' :: ([] : Str)))
    ∧ (1 : Nat) ≤ 1 ∧ 1 ≤ 3 ∧ 1 ≤ 2 ∧ 2 ≤ 3
    ∧ (pyJoin (str "t") (format_part_filename (str "v") (str ".mp4") 1 3 defaultPat)
        = pyJoin (str "t") (format_part_filename (str "v") (str ".mp4") 2 3 defaultPat)
        → 1 = 2) := by
  refine ⟨by decide, by decide, Or.inr rfl, by omega, by omega, by omega, by omega, ?_⟩
  exact c5_theorem defaultPat (str "_part_") (str "_of_") [] (str "v") (str ".mp4")
    (str "t") 3 1 2 (by decide) (by decide) (by simp) (Or.inr rfl)
    (by omega) (by omega) (by omega) (by omega)

/-- C1 counterexample: the round-trip fails as universally stated.  With the
default pattern, `total = 1` (the search starts at 2) and `total = 100` (the
search stops at 99) are not recognised at all; with the pattern `"#"` the
recovered pair is `(2, 1)` instead of `(3, 1)`; and an extension without a
leading dot is not recognised either. -/
theorem c1_counterexample :
    recognizeTriple (format_part_filename (str "a") (str ".mp4") 1 1 defaultPat) defaultPat
      = none
    ∧ recognizeTriple (format_part_filename (str "a") (str ".mp4") 1 100 defaultPat)
        defaultPat = none
    ∧ ((1 : Nat) ≤ 1 ∧ 1 ≤ 3 ∧ 3 ≤ 3)
    ∧ recognizeTriple (format_part_filename (str "a") (str ".mp4") 1 3 (str "#")) (str "#")
      = some (str "a", 2, 1)
    ∧ recognizeTriple (format_part_filename (str "a") (str "mp4") 1 2 defaultPat) defaultPat
      = none := by
  refine ⟨?_, ?_, by omega, ?_, ?_⟩
  · have hsp : (splitExt (format_part_filename (str "a") (str ".mp4") 1 1 defaultPat)).1
        = str "a_part_1_of_1" := by decide
    have hs : searchTP (str "a_part_1_of_1") defaultPat = none := by
      apply searchTP_eq_none
      intro t p ht2 ht100 hp1 hpt
      by_cases hT : t < 10
      · have hbdd : ∀ t, t < 10 → ∀ p, p < 10 → 2 ≤ t → 1 ≤ p → p ≤ t →
            pyEndsWith (str "a_part_1_of_1") (mkSuffix defaultPat t p) = false := by decide
        exact hbdd t hT p (by omega) ht2 hp1 hpt
      · apply pyEndsWith_false_of_lt
        rw [mkSuffix_default_len_large t p (by omega) ht100 (by omega)]
        decide
    unfold recognizeTriple
    rw [hsp, hs]
    rfl
  · have hsp : (splitExt (format_part_filename (str "a") (str ".mp4") 1 100 defaultPat)).1
        = str "a_part_001_of_100" := by decide
    have hs : searchTP (str "a_part_001_of_100") defaultPat = none := by
      apply searchTP_eq_none
      intro t p ht2 ht100 hp1 hpt
      by_cases hT : t < 10
      · have hbdd : ∀ t, t < 10 → ∀ p, p < 10 → 2 ≤ t → 1 ≤ p → p ≤ t →
            pyEndsWith (str "a_part_001_of_100") (mkSuffix defaultPat t p) = false := by
          decide
        exact hbdd t hT p (by omega) ht2 hp1 hpt
      · exact pyEndsWith_default_false_head _ t p (by omega) ht100 (by omega) (by decide)
    unfold recognizeTriple
    rw [hsp, hs]
    rfl
  · decide
  · have hsp : (splitExt (format_part_filename (str "a") (str "mp4") 1 2 defaultPat)).1
        = str "a_part_1_of_2mp4" := by decide
    have hs : searchTP (str "a_part_1_of_2mp4") defaultPat = none := by
      apply searchTP_eq_none
      intro t p ht2 ht100 hp1 hpt
      by_cases hT : t < 10
      · have hbdd : ∀ t, t < 10 → ∀ p, p < 10 → 2 ≤ t → 1 ≤ p → p ≤ t →
            pyEndsWith (str "a_part_1_of_2mp4") (mkSuffix defaultPat t p) = false := by
          decide
        exact hbdd t hT p (by omega) ht2 hp1 hpt
      · exact pyEndsWith_default_false_head _ t p (by omega) ht100 (by omega) (by decide)
    unfold recognizeTriple
    rw [hsp, hs]
    rfl

/-- C1 (amended): with the default pattern `_part_#_of_##`, an extension of
the form `'.'`-then-dot-free-text, and `2 ≤ total ≤ 99`, `1 ≤ index ≤ total`,
recognising the generated filename recovers exactly `(base, total, index)`,
for every base name. -/
theorem c1_amended : ∀ (base r : Str) (t p : Nat), 2 ≤ t → t ≤ 99 → 1 ≤ p → p ≤ t →
    '.' ∉ r →
    recognizeTriple (format_part_filename base ('.' :: r) p t defaultPat) defaultPat
      = some (base, t, p) := by
  intro base r t p h1 h2 h3 h4 h5
  exact recognizeTriple_roundtrip base r t p h1 h2 h3 h4 h5

/-- C1 witness: base `a`, extension `.mp4`, part 1 of 2. -/
theorem c1_amended_witness :
    (2 ≤ 2 ∧ 2 ≤ 99 ∧ 1 ≤ 1 ∧ 1 ≤ 2 ∧ '.' ∉ str "mp4")
    ∧ recognizeTriple (format_part_filename (str "a") ('.' :: str "mp4") 1 2 defaultPat)
        defaultPat = some (str "a", 2, 1) := by
  refine ⟨⟨by omega, by omega, by omega, by omega, by decide⟩, ?_⟩
  exact c1_amended (str "a") (str "mp4") 2 1 (by omega) (by omega) (by omega) (by omega)
    (by decide)

set_option maxHeartbeats 16000000 in
set_option maxRecDepth 1000000 in
/-- C3 counterexample: with two to-split candidates and a remux tool that
always fails, the run ends (`exited = true`) after the single command for
the first job's first part: nothing at all is written to the action log,
and no command for the second candidate is ever issued — contradicting
"the failure is logged, and the batch continues with the next candidate
file". -/
theorem c3_counterexample :
    (mainModel (fun _ => false) (fun _ => 100) (fun _ => 60) (str "_d") 2 none (str "t")
        false false [(str "s/a.mp4", str "s"), (str "s/b.mp4", str "s")]
        ⟨[str "s/a.mp4", str "s/b.mp4"], []⟩).exited = true
    ∧ (mainModel (fun _ => false) (fun _ => 100) (fun _ => 60) (str "_d") 2 none (str "t")
        false false [(str "s/a.mp4", str "s"), (str "s/b.mp4", str "s")]
        ⟨[str "s/a.mp4", str "s/b.mp4"], []⟩).st.log = []
    ∧ (mainModel (fun _ => false) (fun _ => 100) (fun _ => 60) (str "_d") 2 none (str "t")
        false false [(str "s/a.mp4", str "s"), (str "s/b.mp4", str "s")]
        ⟨[str "s/a.mp4", str "s/b.mp4"], []⟩).cmds.map FfCmd.input = [str "s/a.mp4"] := by
  refine ⟨by decide, by decide, by decide⟩

/-- C3 (amended): a nonzero exit of the remux tool terminates the whole run:
when a job's split call exits, `exec_all` stops with `exited = true`, every
command issued belongs to that job, the failure is not appended to the
action log, and no later job is started. -/
theorem c3_amended : ∀ (ok : FfCmd → Bool) (dur : Str → ℚ) (pat tg : Str) (mv : Bool)
    (j : Str × Str × Nat) (jobs : List (Str × Str × Nat)) (st : St),
    (get_existing_parts st.fs (expectedOf j.1 tg pat j.2.2)).length ≠ j.2.2 →
    (split_with_ffmpeg ok dur j.1 j.2.2 tg pat j.2.1 mv st).ret = none →
    exec_all ok dur pat tg mv (j :: jobs) st
      = ((split_with_ffmpeg ok dur j.1 j.2.2 tg pat j.2.1 mv st).cmds,
         (split_with_ffmpeg ok dur j.1 j.2.2 tg pat j.2.1 mv st).st, true)
    ∧ (split_with_ffmpeg ok dur j.1 j.2.2 tg pat j.2.1 mv st).st.log = st.log
    ∧ (∀ c ∈ (exec_all ok dur pat tg mv (j :: jobs) st).1, c.input = j.1) := by
  intro ok dur pat tg mv j jobs st hpre hexit
  have he := exec_all_cons_exit ok dur pat tg mv j jobs st hpre hexit
  refine ⟨he, split_ret_none_log _ _ _ _ _ _ _ _ _ hexit, ?_⟩
  intro c hc
  rw [he] at hc
  exact split_cmds_input _ _ _ _ _ _ _ _ _ c hc

set_option maxHeartbeats 16000000 in
set_option maxRecDepth 1000000 in
/-- C3 witness: the two-job failing scenario instantiating the amended
theorem. -/
theorem c3_amended_witness :
    (get_existing_parts ([str "s/a.mp4", str "s/b.mp4"] : List Str)
        (expectedOf (str "s/a.mp4") (str "t") (str "_d") 2)).length ≠ 2
    ∧ (split_with_ffmpeg (fun _ => false) (fun _ => 60) (str "s/a.mp4") 2 (str "t")
        (str "_d") (str "s") false ⟨[str "s/a.mp4", str "s/b.mp4"], []⟩).ret = none
    ∧ exec_all (fun _ => false) (fun _ => 60) (str "_d") (str "t") false
        [(str "s/a.mp4", str "s", 2), (str "s/b.mp4", str "s", 2)]
        ⟨[str "s/a.mp4", str "s/b.mp4"], []⟩
      = ((split_with_ffmpeg (fun _ => false) (fun _ => 60) (str "s/a.mp4") 2 (str "t")
            (str "_d") (str "s") false ⟨[str "s/a.mp4", str "s/b.mp4"], []⟩).cmds,
         (split_with_ffmpeg (fun _ => false) (fun _ => 60) (str "s/a.mp4") 2 (str "t")
            (str "_d") (str "s") false ⟨[str "s/a.mp4", str "s/b.mp4"], []⟩).st, true)
    ∧ (split_with_ffmpeg (fun _ => false) (fun _ => 60) (str "s/a.mp4") 2 (str "t")
        (str "_d") (str "s") false ⟨[str "s/a.mp4", str "s/b.mp4"], []⟩).st.log = [] := by
  have h := c3_amended (fun _ => false) (fun _ => 60) (str "_d") (str "t") false
    (str "s/a.mp4", str "s", 2) [(str "s/b.mp4", str "s", 2)]
    ⟨[str "s/a.mp4", str "s/b.mp4"], []⟩ (by decide) (by decide)
  exact ⟨by decide, by decide, h.1, h.2.1⟩

/-- C4: the resume scenario: for a four-part job whose expected parts 1–3
already exist on disk and part 4 does not, `split_with_ffmpeg` issues
exactly one remux command — the one for part 4 — and finishes in the
completion branch: the returned part list, re-read from the filesystem, is
all four expected parts, and the completion record is logged. -/
theorem c4_theorem : ∀ (ok : FfCmd → Bool) (dur : Str → ℚ) (input tg pat src : Str)
    (st : St) (a b c d : Str),
    expectedOf input tg pat 4 = [a, b, c, d] →
    is_already_a_part (basename input) pat = false →
    a ∈ st.fs → b ∈ st.fs → c ∈ st.fs → d ∉ st.fs →
    ok (mkCmd input (dur input / ((4 : Nat) : ℚ)) 4 3 d) = true →
    split_with_ffmpeg ok dur input 4 tg pat src false st
      = ⟨[mkCmd input (dur input / ((4 : Nat) : ℚ)) 4 3 d],
         ⟨d :: st.fs, st.log ++ [LogEntry.completed input 4]⟩,
         some ([a, b, c, d], SplitStatus.resume)⟩ := by
  intro ok dur input tg pat src st a b c d hE ha h0 h1 h2 h3 hok
  exact split_resume4_gen ok dur input tg pat src st a b c d hE ha h0 h1 h2 h3 hok

/-- C4 witness: source `s/a.mp4`, parts 1–3 of 4 already in `t`. -/
theorem c4_witness :
    (expectedOf (str "s/a.mp4") (str "t") defaultPat 4
        = [str "t/a_part_1_of_4.mp4", str "t/a_part_2_of_4.mp4",
           str "t/a_part_3_of_4.mp4", str "t/a_part_4_of_4.mp4"]
      ∧ is_already_a_part (basename (str "s/a.mp4")) defaultPat = false
      ∧ str "t/a_part_4_of_4.mp4"
          ∉ ([str "t/a_part_1_of_4.mp4", str "t/a_part_2_of_4.mp4",
              str "t/a_part_3_of_4.mp4"] : List Str))
    ∧ split_with_ffmpeg (fun _ => true) (fun _ => 100) (str "s/a.mp4") 4 (str "t")
        defaultPat (str "s") false
        ⟨[str "t/a_part_1_of_4.mp4", str "t/a_part_2_of_4.mp4",
          str "t/a_part_3_of_4.mp4"], []⟩
      = ⟨[mkCmd (str "s/a.mp4") ((100 : ℚ) / ((4 : Nat) : ℚ)) 4 3
            (str "t/a_part_4_of_4.mp4")],
         ⟨[str "t/a_part_4_of_4.mp4", str "t/a_part_1_of_4.mp4",
           str "t/a_part_2_of_4.mp4", str "t/a_part_3_of_4.mp4"],
          [LogEntry.completed (str "s/a.mp4") 4]⟩,
         some ([str "t/a_part_1_of_4.mp4", str "t/a_part_2_of_4.mp4",
            str "t/a_part_3_of_4.mp4", str "t/a_part_4_of_4.mp4"],
           SplitStatus.resume)⟩ := by
  have ha : is_already_a_part (basename (str "s/a.mp4")) defaultPat = false := by
    rw [is_already_of_mem _ _ (by decide)]
    rw [show (splitExt (basename (str "s/a.mp4"))).1 = str "a" from by decide]
    rw [searchTP_default_none_of_short _ (by decide)]
    rfl
  refine ⟨⟨by decide, ha, by decide⟩, ?_⟩
  exact c4_theorem (fun _ => true) (fun _ => 100) (str "s/a.mp4") (str "t") defaultPat
    (str "s")
    ⟨[str "t/a_part_1_of_4.mp4", str "t/a_part_2_of_4.mp4", str "t/a_part_3_of_4.mp4"], []⟩
    _ _ _ _ (by decide) ha (by decide) (by decide) (by decide) (by decide) rfl

set_option maxHeartbeats 16000000 in
set_option maxRecDepth 1000000 in
/-- C6 counterexample: with the hash-free pattern `_d`, `--moveprocessed`
enabled, and the target directory equal to the first source directory, the
dry run classifies both candidates as auto-move, while the real run's
auto-move of the first candidate changes the second candidate's
classification to a new split — dry run and real run disagree. -/
theorem c6_counterexample :
    (classify_all (str "_d") 2 none (str "s") true true (fun _ => 0)
        [(str "s/x_d.mp4", str "s"), (str "u/x_d.mp4", str "u")]
        ⟨[str "s/x_d.mp4", str "u/x_d.mp4"], []⟩).1
      = [PClass.autoMove, PClass.autoMove]
    ∧ (classify_all (str "_d") 2 none (str "s") true false (fun _ => 0)
        [(str "s/x_d.mp4", str "s"), (str "u/x_d.mp4", str "u")]
        ⟨[str "s/x_d.mp4", str "u/x_d.mp4"], []⟩).1
      = [PClass.autoMove, PClass.toSplit 2 false] := by
  constructor
  · decide
  · decide

/-- C6 (amended): when the pattern contains `'#'`, the classification pass
never changes the filesystem state and its result does not depend on the
dry-run or move-processed flags, so re-running against the unchanged
filesystem — and a dry run versus a real run — yields the identical
classification. -/
theorem c6_amended : ∀ (pattern : Str) (partsArg : Nat) (maxB : Option ℚ)
    (targetDir : Str) (m₁ d₁ m₂ d₂ : Bool) (size : Str → Nat)
    (cands : List (Str × Str)) (st : St), '#' ∈ pattern →
    classify_all pattern partsArg maxB targetDir m₁ d₁ size cands st
      = classify_all pattern partsArg maxB targetDir m₂ d₂ size cands st
    ∧ (classify_all pattern partsArg maxB targetDir m₁ d₁ size cands st).2 = st := by
  intro pattern partsArg maxB targetDir m₁ d₁ m₂ d₂ size cands st hm
  exact classify_all_hash pattern partsArg maxB targetDir m₁ d₁ m₂ d₂ size hm cands st

/-- C6 witness: the default pattern, dry run versus real run. -/
theorem c6_witness :
    '#' ∈ defaultPat
    ∧ classify_all defaultPat 2 none (str "t") true true (fun _ => 0)
        [(str "s/x_part_1_of_2.mp4", str "s")] ⟨[str "s/x_part_1_of_2.mp4"], []⟩
      = classify_all defaultPat 2 none (str "t") true false (fun _ => 0)
        [(str "s/x_part_1_of_2.mp4", str "s")] ⟨[str "s/x_part_1_of_2.mp4"], []⟩
    ∧ (classify_all defaultPat 2 none (str "t") true true (fun _ => 0)
        [(str "s/x_part_1_of_2.mp4", str "s")] ⟨[str "s/x_part_1_of_2.mp4"], []⟩).2
      = ⟨[str "s/x_part_1_of_2.mp4"], []⟩ := by
  have h := c6_amended defaultPat 2 none (str "t") true true true false (fun _ => 0)
    [(str "s/x_part_1_of_2.mp4", str "s")] ⟨[str "s/x_part_1_of_2.mp4"], []⟩ (by decide)
  exact ⟨by decide, h.1, h.2⟩

set_option maxHeartbeats 16000000 in
set_option maxRecDepth 1000000 in
/-- C7 counterexample: `s/x_part_1_of_2.mp4` is recognized as part 1 of 2 of
base `x`, and both sibling parts exist in the target directory while the
original `s/x.mp4` is still present and relocation is enabled — yet the
classification pass leaves the filesystem and the log untouched (no
`AutoMoved` is emitted, the original is not relocated): the recognized
candidate is skipped as already-a-part, and the original is classified
complete. -/
theorem c7_counterexample :
    recognizeTriple (basename (str "s/x_part_1_of_2.mp4")) defaultPat
        = some (str "x", 2, 1)
    ∧ expectedOf (str "s/x.mp4") (str "t") defaultPat 2
        = [str "t/x_part_1_of_2.mp4", str "t/x_part_2_of_2.mp4"]
    ∧ classify_all defaultPat 2 none (str "t") true false (fun _ => 0)
        [(str "s/x_part_1_of_2.mp4", str "s"), (str "s/x.mp4", str "s")]
        ⟨[str "s/x_part_1_of_2.mp4", str "s/x.mp4",
          str "t/x_part_1_of_2.mp4", str "t/x_part_2_of_2.mp4"], []⟩
      = ([PClass.alreadyPart, PClass.completeSkip],
         ⟨[str "s/x_part_1_of_2.mp4", str "s/x.mp4",
           str "t/x_part_1_of_2.mp4", str "t/x_part_2_of_2.mp4"], []⟩) := by
  have ha1 : is_already_a_part (basename (str "s/x_part_1_of_2.mp4")) defaultPat
      = true := by decide
  have hstem : (splitExt (basename (str "s/x.mp4"))).1 = str "x" := by decide
  have hs2 : searchTP (splitExt (basename (str "s/x.mp4"))).1 defaultPat = none := by
    rw [hstem]
    exact searchTP_default_none_of_short _ (by decide)
  have ha2 : is_already_a_part (basename (str "s/x.mp4")) defaultPat = false := by
    rw [is_already_of_mem _ _ (by decide), hs2]
    rfl
  have hgb2 : get_base_name_without_suffix (basename (str "s/x.mp4")) defaultPat
      = none := get_base_none_of_searchTP _ _ hs2
  have hc1 := classify_candidate_already defaultPat 2 none (str "t") true false
    (fun _ => 0)
    ⟨[str "s/x_part_1_of_2.mp4", str "s/x.mp4",
      str "t/x_part_1_of_2.mp4", str "t/x_part_2_of_2.mp4"], []⟩
    (str "s/x_part_1_of_2.mp4") (str "s") ha1
  have hc2 := classify_candidate_of_base_none defaultPat 2 none (str "t") true false
    (fun _ => 0)
    ⟨[str "s/x_part_1_of_2.mp4", str "s/x.mp4",
      str "t/x_part_1_of_2.mp4", str "t/x_part_2_of_2.mp4"], []⟩
    (str "s/x.mp4") (str "s") ha2 hgb2
  have htail : classifyPureTail defaultPat 2 none (str "t") (fun _ => 0)
      ⟨[str "s/x_part_1_of_2.mp4", str "s/x.mp4",
        str "t/x_part_1_of_2.mp4", str "t/x_part_2_of_2.mp4"], []⟩
      (str "s/x.mp4") = PClass.completeSkip := by decide
  refine ⟨by decide, by decide, ?_⟩
  rw [classify_all_cons, hc1]
  simp only [classify_all_cons, classify_all_nil, hc2, htail]


/-- C7 (amended): a candidate whose name the part search accepts is
classified `alreadyPart` with no state change, and `split_with_ffmpeg`
refuses to split it; moreover whenever the pattern contains `'#'` —
in particular for the default pattern — no candidate is ever classified
`autoMove`, so the relocation post-action is never triggered from the
classification pass. -/
theorem c7_amended : ∀ (pattern : Str) (partsArg : Nat) (maxB : Option ℚ)
    (targetDir : Str) (m d : Bool) (size : Str → Nat) (st : St) (v src : Str)
    (ok : FfCmd → Bool) (dur : Str → ℚ) (n : Nat) (tg : Str) (mv : Bool),
    (is_already_a_part (basename v) pattern = true →
      classify_candidate pattern partsArg maxB targetDir m d size st v src
        = (.alreadyPart, st)
      ∧ split_with_ffmpeg ok dur v n tg pattern src mv st
        = ⟨[], ⟨st.fs, st.log ++ [.skippedPart v]⟩, some ([], .alreadyPart)⟩)
    ∧ ('#' ∈ pattern →
      (classify_candidate pattern partsArg maxB targetDir m d size st v src).1
        ≠ .autoMove) := by
  intro pattern partsArg maxB targetDir m d size st v src ok dur n tg mv
  constructor
  · intro h
    refine ⟨classify_candidate_already _ _ _ _ _ _ _ _ _ _ h, ?_⟩
    unfold split_with_ffmpeg
    rw [h]
    rfl
  · intro hm
    exact classify_candidate_hash_no_automove _ _ _ _ _ _ _ _ _ _ hm

/-- C7 witness: the recognized part `s/x_part_1_of_2.mp4` under the
default pattern. -/
theorem c7_amended_witness :
    (is_already_a_part (basename (str "s/x_part_1_of_2.mp4")) defaultPat = true
      ∧ '#' ∈ defaultPat)
    ∧ classify_candidate defaultPat 2 none (str "t") true false (fun _ => 0)
        ⟨[], []⟩ (str "s/x_part_1_of_2.mp4") (str "s") = (.alreadyPart, ⟨[], []⟩)
    ∧ split_with_ffmpeg (fun _ => true) (fun _ => 60) (str "s/x_part_1_of_2.mp4") 2
        (str "t") defaultPat (str "s") false ⟨[], []⟩
      = ⟨[], ⟨[], [LogEntry.skippedPart (str "s/x_part_1_of_2.mp4")]⟩,
         some ([], .alreadyPart)⟩
    ∧ (classify_candidate defaultPat 2 none (str "t") true false (fun _ => 0)
        ⟨[], []⟩ (str "s/x_part_1_of_2.mp4") (str "s")).1 ≠ .autoMove := by
  have h := c7_amended defaultPat 2 none (str "t") true false (fun _ => 0) ⟨[], []⟩
    (str "s/x_part_1_of_2.mp4") (str "s") (fun _ => true) (fun _ => 60) 2 (str "t") false
  have ha : is_already_a_part (basename (str "s/x_part_1_of_2.mp4")) defaultPat
      = true := by decide
  exact ⟨⟨ha, by decide⟩, (h.1 ha).1, (h.1 ha).2, h.2 (by decide)⟩

/-- C8 (amended): with the size bound active and a `'#'`-containing
pattern, every candidate that is not already a part and whose size is at
most `maxBytesPerPart` is classified `tooSmall` with no state change —
positionally in the classification list — and the run issues no remux
command for it. -/
theorem c8_amended : ∀ (pattern : Str) (partsArg : Nat) (m : ℚ) (targetDir : Str)
    (mv dr : Bool) (size : Str → Nat) (ok : FfCmd → Bool) (dur : Str → ℚ)
    (cands : List (Str × Str)) (st : St) (v src : Str),
    '#' ∈ pattern → is_already_a_part (basename v) pattern = false →
    (size v : ℚ) ≤ m →
    classify_candidate pattern partsArg (some m) targetDir mv dr size st v src
      = (.tooSmall, st)
    ∧ (∀ (k : Nat) (src' : Str), cands[k]? = some (v, src') →
        (mainModel ok size dur pattern partsArg (some m) targetDir mv dr cands
          st).classes[k]? = some .tooSmall)
    ∧ ∀ c ∈ (mainModel ok size dur pattern partsArg (some m) targetDir mv dr cands
        st).cmds, c.input ≠ v := by
  intro pattern partsArg m targetDir mv dr size ok dur cands st v src hm ha hsz
  have hgb : get_base_name_without_suffix (basename v) pattern = none :=
    get_base_none_of_searchTP _ _ (searchTP_none_of_not_already _ _ hm ha)
  have hcand : ∀ (st' : St) (src' : Str),
      classify_candidate pattern partsArg (some m) targetDir mv dr size st' v src'
        = (.tooSmall, st') := by
    intro st' src'
    rw [classify_candidate_of_base_none _ _ _ _ _ _ _ _ _ _ ha hgb]
    simp only [classifyPureTail]
    rw [if_pos hsz]
  have hclasses : (mainModel ok size dur pattern partsArg (some m) targetDir mv dr
        cands st).classes
      = cands.map (fun x => (classify_candidate pattern partsArg (some m) targetDir
          mv dr size st x.1 x.2).1) := by
    rw [mainModel_classes, classify_all_hash_map _ _ _ _ _ _ _ hm]
  refine ⟨hcand st src, ?_, ?_⟩
  · intro k src' hk
    rw [hclasses, List.getElem?_map, hk]
    simp only [Option.map_some']
    rw [hcand st src']
  · intro c hc hv
    cases hdr : dr with
    | true =>
      simp only [mainModel, hdr, if_true] at hc
      simp at hc
    | false =>
      rw [hdr] at hclasses hcand hc
      simp only [mainModel, Bool.false_eq_true, if_false] at hc
      obtain ⟨j, hj, hinput⟩ := exec_all_inputs _ _ _ _ _ _ _ c hc
      have hcl1 : (classify_all pattern partsArg (some m) targetDir mv false size
            cands st).1
          = cands.map (fun x => (classify_candidate pattern partsArg (some m) targetDir
              mv false size st x.1 x.2).1) :=
        classify_all_hash_map _ _ _ _ _ _ _ hm cands st
      rw [hcl1] at hj
      have hzip : cands.zip (cands.map (fun x => (classify_candidate pattern partsArg
            (some m) targetDir mv false size st x.1 x.2).1))
          = cands.map (fun a => (a, (classify_candidate pattern partsArg (some m)
              targetDir mv false size st a.1 a.2).1)) := by
        nth_rewrite 1 [← List.map_id cands]
        rw [List.zip_map']
        simp
      rw [hzip, List.filterMap_map] at hj
      rw [List.mem_filterMap] at hj
      obtain ⟨a, hamem, hfa⟩ := hj
      simp only [Function.comp_apply] at hfa
      cases hcl : (classify_candidate pattern partsArg (some m) targetDir mv false
          size st a.1 a.2).1 with
      | toSplit n r =>
        rw [hcl] at hfa
        simp only [Option.some.injEq] at hfa
        subst hfa
        rw [hv] at hinput
        have ha1 : a.1 = v := by rw [hinput]
        have hts := hcand st a.2
        rw [ha1] at hcl
        rw [hts] at hcl
        exact PClass.noConfusion hcl
      | alreadyPart => rw [hcl] at hfa; simp at hfa
      | autoMove => rw [hcl] at hfa; simp at hfa
      | tooSmall => rw [hcl] at hfa; simp at hfa
      | completeSkip => rw [hcl] at hfa; simp at hfa


/-- C8 witness: a 5-byte `s/x.mp4` under a 10-byte bound with the default
pattern. -/
theorem c8_witness :
    ('#' ∈ defaultPat
      ∧ is_already_a_part (basename (str "s/x.mp4")) defaultPat = false
      ∧ ((5 : Nat) : ℚ) ≤ (10 : ℚ))
    ∧ classify_candidate defaultPat 2 (some 10) (str "t") false false (fun _ => 5)
        ⟨[str "s/x.mp4"], []⟩ (str "s/x.mp4") (str "s")
      = (.tooSmall, ⟨[str "s/x.mp4"], []⟩)
    ∧ (mainModel (fun _ => true) (fun _ => 5) (fun _ => 60) defaultPat 2 (some 10)
        (str "t") false false [(str "s/x.mp4", str "s")]
        ⟨[str "s/x.mp4"], []⟩).classes[0]? = some .tooSmall
    ∧ ∀ c ∈ (mainModel (fun _ => true) (fun _ => 5) (fun _ => 60) defaultPat 2 (some 10)
        (str "t") false false [(str "s/x.mp4", str "s")]
        ⟨[str "s/x.mp4"], []⟩).cmds, c.input ≠ str "s/x.mp4" := by
  have hstem : (splitExt (basename (str "s/x.mp4"))).1 = str "x" := by decide
  have hs : searchTP (splitExt (basename (str "s/x.mp4"))).1 defaultPat = none := by
    rw [hstem]
    exact searchTP_default_none_of_short _ (by decide)
  have ha : is_already_a_part (basename (str "s/x.mp4")) defaultPat = false := by
    rw [is_already_of_mem _ _ (by decide), hs]
    rfl
  have hsz : (((5 : Nat) : ℚ) ≤ (10 : ℚ)) := by norm_num
  have h := c8_amended defaultPat 2 10 (str "t") false false (fun _ => 5)
    (fun _ => true) (fun _ => 60) [(str "s/x.mp4", str "s")] ⟨[str "s/x.mp4"], []⟩
    (str "s/x.mp4") (str "s") (by decide) ha hsz
  exact ⟨⟨by decide, ha, hsz⟩, h.1, h.2.1 0 (str "s") rfl, h.2.2⟩

set_option maxHeartbeats 16000000 in
set_option maxRecDepth 1000000 in
/-- C8 counterexample: with the hash-free pattern `_d`, a 5-byte candidate
well under the 1000-byte bound is classified `autoMove`, not `tooSmall`:
the auto-move check runs before the size check and preempts it. -/
theorem c8_counterexample :
    is_already_a_part (basename (str "s/x_d.mp4")) (str "_d") = false
    ∧ ((5 : Nat) : ℚ) ≤ (1000 : ℚ)
    ∧ (classify_candidate (str "_d") 2 (some 1000) (str "t") true false (fun _ => 5)
        ⟨[str "s/x_d.mp4", str "t/x_d.mp4"], []⟩ (str "s/x_d.mp4") (str "s")).1
      = PClass.autoMove := by
  refine ⟨by decide, by norm_num, by decide⟩


end SplitFF
